import Mathlib

/-!
Verification of the mlpack range-search core (`range_search_impl.hpp`)
against its natural-language specification.

The orchestrator (constructors, destructor, the three `Search` overloads
and their index-remapping passes) is embedded from the source file.
The pruning/base-case rule (`range_search_rules.hpp`) and the tree
traversers are external to the provided sources; they are modelled from
the spec (sections 4.2 and 6) and marked as such in their doc comments.

Distances are modelled as rationals; points are an abstract inhabited
type with a pluggable metric, matching the source's template parameters.
-/

namespace RangeSearchModel

/-- The closed interval `[lo, hi]` (embeds `math::Range`). -/
structure MRange where
  lo : ℚ
  hi : ℚ
deriving DecidableEq

/-- `math::Range::Contains`: membership in the closed interval
(inclusive at both ends). -/
def MRange.contains (r : MRange) (d : ℚ) : Bool :=
  decide (r.lo ≤ d) && decide (d ≤ r.hi)

section Defs

variable {α : Type} [Inhabited α]

/-- Distance between query point `i` and reference point `j`
(out-of-bounds indices read a default point; all uses are in bounds). -/
def distOf (metric : α → α → ℚ) (qSet rSet : List α) (i j : Nat) : ℚ :=
  metric (qSet.getD i default) (rSet.getD j default)

/-- Modelled from the spec (§4.2, Rule — base case; `range_search_rules.hpp`
is not among the provided sources): compute `metric(i, j)`; if self-exclusion
is active and `i = j`, skip; otherwise, if the distance lies within
`[lo, hi]`, append `(j, distance)` to the row of results for query `i`. -/
def baseCase (metric : α → α → ℚ) (rng : MRange) (sameSet : Bool)
    (qSet rSet : List α) (i j : Nat) (row : List Nat × List ℚ) :
    List Nat × List ℚ :=
  if sameSet && i == j then row
  else if rng.contains (distOf metric qSet rSet i j) then
    (row.1 ++ [j], row.2 ++ [distOf metric qSet rSet i j])
  else row

/-- Whether the base case for `(i, j)` appends a result. -/
def good (metric : α → α → ℚ) (rng : MRange) (sameSet : Bool)
    (qSet rSet : List α) (i j : Nat) : Bool :=
  !(sameSet && i == j) && rng.contains (distOf metric qSet rSet i j)

/-- Fold the base case over a list of reference indices for one query row. -/
def foldBase (metric : α → α → ℚ) (rng : MRange) (sameSet : Bool)
    (qSet rSet : List α) (i : Nat) (row : List Nat × List ℚ)
    (js : List Nat) : List Nat × List ℚ :=
  js.foldl (fun r j => baseCase metric rng sameSet qSet rSet i j r) row

end Defs

/-- Modelled from the spec (§3, §6): a binary spatial-index node; leaves hold
the node's contiguous subset of (possibly internally reordered) point
positions, internal nodes hold two children. -/
inductive TNode where
  | leaf (pts : List Nat)
  | node (l r : TNode)
deriving DecidableEq

/-- All point positions held below a node. -/
def TNode.pts : TNode → List Nat
  | .leaf ps => ps
  | .node l r => l.pts ++ r.pts

/-- All subtrees of a node, the node itself included. -/
def TNode.subtrees : TNode → List TNode
  | .leaf ps => [.leaf ps]
  | .node l r => .node l r :: (l.subtrees ++ r.subtrees)

/-- Modelled from the spec (§4.2, single-tree strategy and Rule — node
pruning): traverse the reference index from a node; prune a node whose
distance bounds to query `i` lie entirely outside `[lo, hi]`, otherwise
run base cases at leaves and recurse into children.  Returns the list of
reference positions on which the base case is invoked for query `i`. -/
def singleVisits (rng : MRange) (bmin bmax : Nat → TNode → ℚ) (i : Nat)
    (t : TNode) : List Nat :=
  if decide (bmax i t < rng.lo) || decide (rng.hi < bmin i t) then []
  else
    match t with
    | .leaf ps => ps
    | .node l r =>
        singleVisits rng bmin bmax i l ++ singleVisits rng bmin bmax i r

/-- Modelled from the spec (§4.2, dual-tree strategy and Rule — node
pruning): recursively traverse (query node, reference node) pairs from
both roots; prune a pair whose node-to-node distance bounds lie entirely
outside `[lo, hi]`, otherwise recurse into children and run base cases at
leaf pairs.  Returns the list of (query position, reference position)
pairs on which the base case is invoked. -/
def dualVisits (rng : MRange) (nmin nmax : TNode → TNode → ℚ)
    (qt rt : TNode) : List (Nat × Nat) :=
  if decide (nmax qt rt < rng.lo) || decide (rng.hi < nmin qt rt) then []
  else
    match qt, rt with
    | .leaf qs, .leaf rs => qs.flatMap fun i => rs.map fun j => (i, j)
    | .leaf qs, .node l r =>
        dualVisits rng nmin nmax (.leaf qs) l ++
          dualVisits rng nmin nmax (.leaf qs) r
    | .node a b, _ =>
        dualVisits rng nmin nmax a rt ++ dualVisits rng nmin nmax b rt
termination_by (sizeOf qt, sizeOf rt)

section Strategy

variable {α : Type} [Inhabited α]

/-- One base-case invocation `(i, j)` against the shared result buffers
(the row of query `i` in each of the two parallel buffers is updated). -/
def applyBase (metric : α → α → ℚ) (rng : MRange) (sameSet : Bool)
    (qSet rSet : List α) (bufs : List (List Nat) × List (List ℚ))
    (p : Nat × Nat) : List (List Nat) × List (List ℚ) :=
  let row := (bufs.1.getD p.1 [], bufs.2.getD p.1 [])
  let row2 := baseCase metric rng sameSet qSet rSet p.1 p.2 row
  (bufs.1.set p.1 row2.1, bufs.2.set p.1 row2.2)

/-- Freshly cleared-and-resized result buffers, one empty row per query
point (embeds the `clear()` / `resize(querySet.n_cols)` calls). -/
def initBufs (nq : Nat) : List (List Nat) × List (List ℚ) :=
  (List.replicate nq [], List.replicate nq [])

/-- Run a sequence of base-case invocations over fresh buffers. -/
def runRules (metric : α → α → ℚ) (rng : MRange) (sameSet : Bool)
    (qSet rSet : List α) (nq : Nat) (ps : List (Nat × Nat)) :
    List (List Nat) × List (List ℚ) :=
  ps.foldl (applyBase metric rng sameSet qSet rSet) (initBufs nq)

/-- The naive strategy's base-case schedule: every (query, reference)
pair, in loop order (embeds the double loop of the naive branch). -/
def naiveVisitList (nq nr : Nat) : List (Nat × Nat) :=
  (List.range nq).flatMap fun i => (List.range nr).map fun j => (i, j)

/-- The naive (brute-force) strategy: `rules.BaseCase(i, j)` for every
pair (embeds the naive branch of `RangeSearch::Search`). -/
def naiveRows (metric : α → α → ℚ) (rng : MRange) (sameSet : Bool)
    (qSet rSet : List α) : List (List Nat) × List (List ℚ) :=
  runRules metric rng sameSet qSet rSet qSet.length
    (naiveVisitList qSet.length rSet.length)

/-- The single-tree strategy's base-case schedule: for each query point,
the reference positions its traversal visits. -/
def singleVisitList (rng : MRange) (bmin bmax : Nat → TNode → ℚ)
    (nq : Nat) (rt : TNode) : List (Nat × Nat) :=
  (List.range nq).flatMap fun i =>
    (singleVisits rng bmin bmax i rt).map fun j => (i, j)

/-- The single-tree strategy: one traversal of the reference tree per
query point (embeds the single-mode branch of `RangeSearch::Search`; the
traverser itself is modelled from the spec, §4.2). -/
def singleRows (metric : α → α → ℚ) (rng : MRange) (sameSet : Bool)
    (qSet rSet : List α) (bmin bmax : Nat → TNode → ℚ) (rt : TNode) :
    List (List Nat) × List (List ℚ) :=
  runRules metric rng sameSet qSet rSet qSet.length
    (singleVisitList rng bmin bmax qSet.length rt)

/-- The dual-tree strategy: one joint traversal of the query and
reference trees (embeds the dual-tree branch of `RangeSearch::Search`;
the traverser itself is modelled from the spec, §4.2). -/
def dualRows (metric : α → α → ℚ) (rng : MRange) (sameSet : Bool)
    (qSet rSet : List α) (nmin nmax : TNode → TNode → ℚ)
    (qt rt : TNode) (nq : Nat) : List (List Nat) × List (List ℚ) :=
  runRules metric rng sameSet qSet rSet nq (dualVisits rng nmin nmax qt rt)

/-- Well-formedness of a final buffer pair: exactly one row per query
point, and the neighbor and distance rows of each query have equal
length (position-wise parallel). -/
def buffersWellFormed (bufs : List (List Nat) × List (List ℚ))
    (n : Nat) : Prop :=
  bufs.1.length = n ∧ bufs.2.length = n ∧
    ∀ i, (bufs.1.getD i []).length = (bufs.2.getD i []).length

/-- The spec's bound contract (§6) for point-to-node bounds: for every
node of the reference tree, `bmin`/`bmax` bound the distance from each
query point to every reference point held below that node. -/
def singleBoundsSound (metric : α → α → ℚ) (qSet rSet : List α)
    (bmin bmax : Nat → TNode → ℚ) (rt : TNode) : Prop :=
  ∀ t ∈ rt.subtrees, ∀ i < qSet.length, ∀ j ∈ t.pts,
    bmin i t ≤ distOf metric qSet rSet i j ∧
      distOf metric qSet rSet i j ≤ bmax i t

/-- The spec's bound contract (§6) for node-to-node bounds: for every
pair of a query-tree node and a reference-tree node, `nmin`/`nmax`
bound the distance between each pair of points held below them. -/
def dualBoundsSound (metric : α → α → ℚ) (qSet rSet : List α)
    (nmin nmax : TNode → TNode → ℚ) (qt rt : TNode) : Prop :=
  ∀ s ∈ qt.subtrees, ∀ t ∈ rt.subtrees, ∀ i ∈ s.pts, ∀ j ∈ t.pts,
    nmin s t ≤ distOf metric qSet rSet i j ∧
      distOf metric qSet rSet i j ≤ nmax s t

/-- The row (neighbors, distances) of query `i` in a pair of buffers. -/
def rowOf (bufs : List (List Nat) × List (List ℚ)) (i : Nat) :
    List Nat × List ℚ :=
  (bufs.1.getD i [], bufs.2.getD i [])

/-- The (reference index, distance) pairs of query `i`'s row. -/
def pairsAt (bufs : List (List Nat) × List (List ℚ)) (i : Nat) :
    List (Nat × ℚ) :=
  (bufs.1.getD i []).zip (bufs.2.getD i [])

end Strategy

section Orchestrator

variable {α : Type} [Inhabited α]

/-- A built spatial index as the orchestrator sees it: a heap identity
(to reason about deletion and sharing), the (possibly reordered) dataset
it exposes, its root node, and its permutation record. -/
structure TreeRec (α : Type) where
  id : Nat
  dataset : List α
  oldFromNew : List Nat
  root : TNode
deriving DecidableEq

/-- Embeds `BuildTree` (both overloads, dispatched on the
`RearrangesDataset` trait): when the tree type rearranges its dataset,
construction permutes the caller's matrix in place, the new dataset and
the emitted `oldFromNew` record being given by the external tree
constructor (modelled by the permutation function `σ` and root builder
`mkRoot`, per the spec's Spatial Index contract, §6); otherwise the
dataset is used as supplied and no record is emitted.  Returns the tree
and the caller's matrix after construction (they alias in the source). -/
def buildTree (rearranges : Bool) (σ : List α → List Nat)
    (mkRoot : List α → TNode) (tid : Nat) (dataset : List α) :
    TreeRec α × List α :=
  if rearranges then
    let perm := σ dataset
    let ds := perm.map fun k => dataset.getD k default
    ({ id := tid, dataset := ds, oldFromNew := perm, root := mkRoot ds }, ds)
  else
    ({ id := tid, dataset := dataset, oldFromNew := [], root := mkRoot dataset },
      dataset)

/-- The orchestrator's state (the data members of `RangeSearch`). -/
structure RangeSearchState (α : Type) where
  referenceTree : Option (TreeRec α)
  referenceSet : List α
  oldFromNewReferences : List Nat
  treeOwner : Bool
  naive : Bool
  singleMode : Bool

/-- Embeds the raw-dataset constructor of `RangeSearch`:
`referenceTree = naive ? NULL : BuildTree(referenceSetIn, oldFromNewReferences)`,
`referenceSet = naive ? referenceSetIn : referenceTree->Dataset()`,
`treeOwner = !naive`, `singleMode = !naive && singleMode`.  Also returns
the caller's reference matrix after construction (the constructor
`const_cast`s it into `BuildTree`, which may permute it in place). -/
def rangeSearchFromData (rearranges : Bool) (σ : List α → List Nat)
    (mkRoot : List α → TNode) (tid : Nat) (referenceSetIn : List α)
    (naive singleMode : Bool) : RangeSearchState α × List α :=
  if naive then
    ({ referenceTree := none
       referenceSet := referenceSetIn
       oldFromNewReferences := []
       treeOwner := false
       naive := true
       singleMode := false }, referenceSetIn)
  else
    let built := buildTree rearranges σ mkRoot tid referenceSetIn
    ({ referenceTree := some built.1
       referenceSet := built.1.dataset
       oldFromNewReferences := built.1.oldFromNew
       treeOwner := true
       naive := false
       singleMode := singleMode }, built.2)

/-- Embeds the pre-built-tree constructor of `RangeSearch`:
`referenceTree = referenceTree`, `referenceSet = referenceTree->Dataset()`,
`treeOwner = false`, `naive = false`, `singleMode = singleMode`. -/
def rangeSearchFromTree (t : TreeRec α) (singleMode : Bool) :
    RangeSearchState α :=
  { referenceTree := some t
    referenceSet := t.dataset
    oldFromNewReferences := []
    treeOwner := false
    naive := false
    singleMode := singleMode }

/-- Embeds `~RangeSearch`: `if (treeOwner && referenceTree) delete
referenceTree;`.  Returns the ids of the trees the teardown deletes. -/
def rangeSearchDestructor (s : RangeSearchState α) : List Nat :=
  if s.treeOwner then
    match s.referenceTree with
    | some t => [t.id]
    | none => []
  else []

/-- One remapping pass of a buffer: `buf[mapping[i]] = raw[i]` for each
internal row `i` (embeds the per-row loops of the remapping code). -/
def scatterRows {β : Type} (mapping : List Nat) (nq : Nat)
    (rows : List (List β)) : List (List β) :=
  (List.range nq).foldl
    (fun acc i => acc.set (mapping.getD i 0) (rows.getD i []))
    (List.replicate nq ([] : List β))

/-- Embeds the both-sides remapping (dual-tree, `treeOwner` true):
`distances[oldFromNewQueries[i]] = raw.distances[i]` and
`neighbors[oldFromNewQueries[i]][j] = oldFromNewReferences[raw.neighbors[i][j]]`. -/
def remapBoth (oFNQ oFNR : List Nat) (nq : Nat)
    (raw : List (List Nat) × List (List ℚ)) :
    List (List Nat) × List (List ℚ) :=
  (scatterRows oFNQ nq (raw.1.map (List.map fun j => oFNR.getD j 0)),
    scatterRows oFNQ nq raw.2)

/-- Embeds the query-side-only remapping (dual-tree, `treeOwner` false):
`distances[oldFromNewQueries[i]] = raw.distances[i]` and
`neighbors[oldFromNewQueries[i]] = raw.neighbors[i]`. -/
def remapQueries (oFNQ : List Nat) (nq : Nat)
    (raw : List (List Nat) × List (List ℚ)) :
    List (List Nat) × List (List ℚ) :=
  (scatterRows oFNQ nq raw.1, scatterRows oFNQ nq raw.2)

/-- Embeds the reference-side-only remapping (naive or single mode with
`treeOwner` true): `neighbors[i][j] = oldFromNewReferences[raw.neighbors[i][j]]`;
the distances buffer is used as-is. -/
def remapRefs (oFNR : List Nat) (nq : Nat)
    (raw : List (List Nat) × List (List ℚ)) :
    List (List Nat) × List (List ℚ) :=
  ((List.range nq).map fun i => (raw.1.getD i []).map fun j => oFNR.getD j 0,
    raw.2)

/-- The root node of the orchestrator's reference tree (`*referenceTree`
in the source; naive mode holds no tree and never reads it). -/
def refRootOf (s : RangeSearchState α) : TNode :=
  (s.referenceTree.map TreeRec.root).getD (.leaf [])

/-- Embeds `RangeSearch::Search(querySet, range, neighbors, distances)`
(the raw-query-set overload).  The prior contents of the caller's
`neighbors` and `distances` buffers are discarded (`clear`/`resize`), so
they do not appear as inputs.  Strategy cores and the query-tree build
are the modelled components above; `σq`/`mkRoot` stand for the external
query-tree constructor, `bmin`/`bmax`/`nmin`/`nmax` for the external
bound computations. -/
def searchQuerySet (rearranges : Bool) (s : RangeSearchState α)
    (σq : List α → List Nat) (mkRoot : List α → TNode)
    (bmin bmax : Nat → TNode → ℚ) (nmin nmax : TNode → TNode → ℚ)
    (metric : α → α → ℚ) (rng : MRange) (querySet : List α) :
    List (List Nat) × List (List ℚ) :=
  let nq := querySet.length
  let refRoot := refRootOf s
  -- oldFromNewQueries is filled only when the dual branch builds a
  -- rearranging query tree; it is read only in that same case.
  let oFNQ := if rearranges then σq querySet else []
  let raw :=
    if s.naive then
      naiveRows metric rng false querySet s.referenceSet
    else if s.singleMode then
      singleRows metric rng false querySet s.referenceSet bmin bmax refRoot
    else
      let builtQ := buildTree rearranges σq mkRoot 0 querySet
      dualRows metric rng false builtQ.1.dataset s.referenceSet nmin nmax
        builtQ.1.root refRoot nq
  if rearranges then
    if !s.singleMode && !s.naive && s.treeOwner then
      remapBoth oFNQ s.oldFromNewReferences nq raw
    else if !s.singleMode && !s.naive then
      remapQueries oFNQ nq raw
    else if s.treeOwner then
      remapRefs s.oldFromNewReferences nq raw
    else raw
  else raw

/-- The caller's query matrix after `searchQuerySet` returns: the dual
branch `const_cast`s it into `BuildTree`, which permutes it in place
when the tree type rearranges its dataset. -/
def searchQuerySetMatrixAfter (rearranges : Bool) (s : RangeSearchState α)
    (σq : List α → List Nat) (mkRoot : List α → TNode)
    (querySet : List α) : List α :=
  if s.naive then querySet
  else if s.singleMode then querySet
  else (buildTree rearranges σq mkRoot 0 querySet).2

/-- Embeds `RangeSearch::Search(queryTree, range, neighbors, distances)`
(the pre-built-query-tree overload).  Throws `std::invalid_argument`
(modelled as `Except.error`) when `singleMode || naive`, before any
buffer mutation; otherwise runs the dual traversal over the query tree's
dataset and remaps reference indices iff `treeOwner` and the tree type
rearranges its dataset. -/
def searchWithQueryTree (rearranges : Bool) (s : RangeSearchState α)
    (qTree : TreeRec α) (nmin nmax : TNode → TNode → ℚ)
    (metric : α → α → ℚ) (rng : MRange) :
    Except String (List (List Nat) × List (List ℚ)) :=
  let querySet := qTree.dataset
  if s.singleMode || s.naive then
    Except.error
      "cannot call RangeSearch::Search() with a query tree when naive or singleMode are set to true"
  else
    let nq := querySet.length
    let refRoot := refRootOf s
    let raw := dualRows metric rng false querySet s.referenceSet nmin nmax
      qTree.root refRoot nq
    if s.treeOwner && rearranges then
      Except.ok (remapRefs s.oldFromNewReferences nq raw)
    else
      Except.ok raw

/-- The caller-observable buffers after the query-tree overload: on the
thrown error the caller's buffers retain their pre-call contents. -/
def searchWithQueryTreeRun (rearranges : Bool) (s : RangeSearchState α)
    (qTree : TreeRec α) (nmin nmax : TNode → TNode → ℚ)
    (metric : α → α → ℚ) (rng : MRange)
    (neighbors : List (List Nat)) (distances : List (List ℚ)) :
    List (List Nat) × List (List ℚ) :=
  match searchWithQueryTree rearranges s qTree nmin nmax metric rng with
  | Except.ok r => r
  | Except.error _ => (neighbors, distances)

/-- Embeds `RangeSearch::Search(range, neighbors, distances)` (the
self-search overload): the reference set doubles as the query set and
the rule is constructed with the self-exclusion flag set (`true /* don't
return the query point in the results */`); both sides are remapped
through `oldFromNewReferences` iff `treeOwner` and the tree type
rearranges its dataset. -/
def searchSelf (rearranges : Bool) (s : RangeSearchState α)
    (bmin bmax : Nat → TNode → ℚ) (nmin nmax : TNode → TNode → ℚ)
    (metric : α → α → ℚ) (rng : MRange) :
    List (List Nat) × List (List ℚ) :=
  let n := s.referenceSet.length
  let refRoot := refRootOf s
  let raw :=
    if s.naive then
      naiveRows metric rng true s.referenceSet s.referenceSet
    else if s.singleMode then
      singleRows metric rng true s.referenceSet s.referenceSet bmin bmax
        refRoot
    else
      dualRows metric rng true s.referenceSet s.referenceSet nmin nmax
        refRoot refRoot n
  if s.treeOwner && rearranges then
    remapBoth s.oldFromNewReferences s.oldFromNewReferences n raw
  else raw

end Orchestrator

/-! Concrete instances used to exercise the theorems (1-D rational
points, absolute-difference metric, spec §8.7's scenario scaled to one
dimension). -/

/-- Concrete metric: absolute difference of 1-D integer points, as a
rational distance. -/
def wMetric : ℤ → ℤ → ℚ := fun a b => ((if a ≤ b then b - a else a - b : ℤ) : ℚ)

/-- Concrete range `[0, 5]`. -/
def wRange : MRange := { lo := 0, hi := 5 }

/-- Concrete externally built, non-rearranged reference tree over
`[0, 3, 4]`. -/
def wTree : TreeRec ℤ :=
  { id := 7, dataset := [0, 3, 4], oldFromNew := []
    root := .node (.leaf [0]) (.node (.leaf [1]) (.leaf [2])) }

/-- Concrete orchestrator borrowing `wTree` in single-tree mode. -/
def wStateSingle : RangeSearchState ℤ := rangeSearchFromTree wTree true

/-- Concrete external tree constructor that swaps the two columns of its
input (a `RearrangesDataset = true` tree, per the spec's §6 contract). -/
def wSwap : List ℤ → List Nat := fun _ => [1, 0]

/-- Concrete root builder pairing the two points. -/
def wRootPair : List ℤ → TNode := fun _ => .node (.leaf [0]) (.leaf [1])

/-- Concrete range `[1, 2]` (for boundary inclusivity checks). -/
def wRange2 : MRange := { lo := 1, hi := 2 }

/-- Concrete empty range (`lo > hi`). -/
def wRangeEmpty : MRange := { lo := 3, hi := 1 }

/-- Concrete owning orchestrator built over `[0, 1]` with the
rearranging (swap) tree type. -/
def wStateOwner : RangeSearchState ℤ :=
  (rangeSearchFromData true wSwap wRootPair 0 [0, 1] false false).1

/-- Trivial bound functions claiming every distance lies in `[0, 10]`. -/
def wBmin : Nat → TNode → ℚ := fun _ _ => 0


/-- Trivial point-to-node upper bound. -/
def wBmax : Nat → TNode → ℚ := fun _ _ => 10

/-- Trivial node-to-node lower bound. -/
def wNmin : TNode → TNode → ℚ := fun _ _ => 0

/-- Trivial node-to-node upper bound. -/
def wNmax : TNode → TNode → ℚ := fun _ _ => 10

/-- The successful result of the query-tree overload on the concrete
owning orchestrator (used to exercise the buffer invariants). -/
def wQtRes : List (List Nat) × List (List ℚ) :=
  match searchWithQueryTree true wStateOwner wTree wNmin wNmax wMetric
    wRange with
  | Except.ok r => r
  | Except.error _ => ([], [])

/-! ## Theorems -/

/-- C4: the raw-dataset constructor with `naive = true` stores
`singleMode = false` regardless of the caller's `singleMode` argument,
builds no tree, and sets the ownership flag false; with `naive = false`
it builds an internal reference tree and sets the ownership flag true;
the pre-built-tree constructor always stores `treeOwner = false` and
`naive = false`. -/
theorem constructor_flag_semantics {α : Type} [Inhabited α]
    (rearranges : Bool) (σ : List α → List Nat) (mkRoot : List α → TNode)
    (tid : Nat) (rs : List α) (singleMode : Bool) (t : TreeRec α) :
    ((rangeSearchFromData rearranges σ mkRoot tid rs true singleMode).1.singleMode
        = false ∧
      (rangeSearchFromData rearranges σ mkRoot tid rs true singleMode).1.referenceTree
        = none ∧
      (rangeSearchFromData rearranges σ mkRoot tid rs true singleMode).1.treeOwner
        = false) ∧
    ((rangeSearchFromData rearranges σ mkRoot tid rs false singleMode).1.referenceTree
        = some (buildTree rearranges σ mkRoot tid rs).1 ∧
      (rangeSearchFromData rearranges σ mkRoot tid rs false singleMode).1.treeOwner
        = true ∧
      (rangeSearchFromData rearranges σ mkRoot tid rs false singleMode).1.singleMode
        = singleMode) ∧
    ((rangeSearchFromTree t singleMode).treeOwner = false ∧
      (rangeSearchFromTree t singleMode).naive = false) := by
  refine ⟨⟨rfl, rfl, rfl⟩, ⟨rfl, rfl, rfl⟩, rfl, rfl⟩

/-- C5: the destructor deletes the reference tree iff the ownership flag
is true and the tree pointer is non-null; an orchestrator borrowing an
externally supplied tree never destroys it, so an owning orchestrator
and a borrowing one sharing that external tree have independent
lifetimes. -/
theorem destructor_deletes_iff_owner {α : Type} [Inhabited α]
    (s : RangeSearchState α) (rearranges : Bool) (σ : List α → List Nat)
    (mkRoot : List α → TNode) (tid : Nat) (rs : List α) (sm sm₂ : Bool)
    (t : TreeRec α) (hid : tid ≠ t.id) :
    (∀ d : Nat, d ∈ rangeSearchDestructor s ↔
      s.treeOwner = true ∧ ∃ tr, s.referenceTree = some tr ∧ tr.id = d) ∧
    rangeSearchDestructor (rangeSearchFromTree t sm) = [] ∧
    t.id ∉ rangeSearchDestructor
      (rangeSearchFromData rearranges σ mkRoot tid rs false sm₂).1 := by
  refine ⟨fun d => ?_, rfl, ?_⟩
  · unfold rangeSearchDestructor
    by_cases ho : s.treeOwner
    · simp only [ho, if_true, true_and]
      cases hrt : s.referenceTree with
      | none => simp
      | some tr => simp [eq_comm]
    · simp [ho]
  · unfold rangeSearchDestructor rangeSearchFromData
    simp [buildTree]
    intro h
    split at h <;> simp_all

/-- Witness for C5 at concrete inputs: the owning orchestrator built
over `[0, 1]` (tree id 0) deletes nothing that is the external tree
`wTree` (id 7), and tearing down the borrower deletes nothing at all. -/
theorem destructor_deletes_iff_owner_witness :
    (0 : Nat) ≠ wTree.id ∧
    (rangeSearchDestructor (rangeSearchFromTree wTree true) = [] ∧
      wTree.id ∉ rangeSearchDestructor
        (rangeSearchFromData true wSwap wRootPair 0 [0, 1] false false).1) := by
  refine ⟨by decide, ?_, ?_⟩
  · exact (destructor_deletes_iff_owner wStateSingle true wSwap wRootPair 0
      [0, 1] true false wTree (by decide)).2.1
  · exact (destructor_deletes_iff_owner wStateSingle true wSwap wRootPair 0
      [0, 1] true false wTree (by decide)).2.2

/-- C3: calling the pre-built-query-tree `Search` overload while
configured for naive or single-tree mode raises `std::invalid_argument`
before any traversal work, and the caller's output buffers are left
unmodified. -/
theorem querytree_overload_usage_error {α : Type} [Inhabited α]
    (rearranges : Bool) (s : RangeSearchState α) (qTree : TreeRec α)
    (nmin nmax : TNode → TNode → ℚ) (metric : α → α → ℚ) (rng : MRange)
    (neighbors : List (List Nat)) (distances : List (List ℚ))
    (h : s.naive = true ∨ s.singleMode = true) :
    searchWithQueryTree rearranges s qTree nmin nmax metric rng =
      Except.error
        "cannot call RangeSearch::Search() with a query tree when naive or singleMode are set to true" ∧
    searchWithQueryTreeRun rearranges s qTree nmin nmax metric rng
      neighbors distances = (neighbors, distances) := by
  have hcond : (s.singleMode || s.naive) = true := by
    rcases h with h | h <;> simp [h]
  constructor
  · unfold searchWithQueryTree
    simp [hcond]
  · unfold searchWithQueryTreeRun searchWithQueryTree
    simp [hcond]

/-- Witness for C3: the single-mode borrower `wStateSingle` rejects the
query-tree overload and leaves concrete buffers untouched. -/
theorem querytree_overload_usage_error_witness :
    (wStateSingle.naive = true ∨ wStateSingle.singleMode = true) ∧
    (searchWithQueryTree false wStateSingle wTree wNmin wNmax wMetric wRange =
      Except.error
        "cannot call RangeSearch::Search() with a query tree when naive or singleMode are set to true" ∧
    searchWithQueryTreeRun false wStateSingle wTree wNmin wNmax wMetric wRange
      [[9]] [[17]] = ([[9]], [[17]])) :=
  ⟨Or.inr rfl,
    querytree_overload_usage_error false wStateSingle wTree wNmin wNmax
      wMetric wRange [[9]] [[17]] (Or.inr rfl)⟩

/-- C9 counterexample: constructing the orchestrator from the raw
reference set `[0, 1]` with a rearranging tree type whose constructor
swaps the two columns leaves the caller's reference matrix permuted to
`[1, 0]` — the caller-supplied point set is not treated as immutable. -/
theorem caller_matrix_is_mutated :
    (rangeSearchFromData true wSwap wRootPair 0 [(0 : ℤ), 1] false false).2
      ≠ [(0 : ℤ), 1] := by
  decide

/-- C9 (amended): the caller's matrices are unmodified whenever no
rearranging tree is built over them — always in naive mode, always for a
tree type that does not rearrange its dataset, and in naive or
single-tree `Search` (which builds no query tree); when a rearranging
tree is built, the matrix is permuted in place exactly as recorded by
the tree's emitted permutation. -/
theorem caller_matrix_preserved_unless_rearranged {α : Type} [Inhabited α]
    (σ : List α → List Nat) (mkRoot : List α → TNode) (tid : Nat)
    (rs qs : List α) (nv sm : Bool) (s : RangeSearchState α)
    (rearranges : Bool) (hns : s.naive = true ∨ s.singleMode = true) :
    (rangeSearchFromData false σ mkRoot tid rs nv sm).2 = rs ∧
    (rangeSearchFromData true σ mkRoot tid rs true sm).2 = rs ∧
    searchQuerySetMatrixAfter false s σ mkRoot qs = qs ∧
    searchQuerySetMatrixAfter rearranges s σ mkRoot qs = qs ∧
    (rangeSearchFromData true σ mkRoot tid rs false sm).2 =
      (σ rs).map (fun k => rs.getD k default) := by
  refine ⟨?_, rfl, ?_, ?_, rfl⟩
  · unfold rangeSearchFromData
    cases nv <;> simp [buildTree]
  · unfold searchQuerySetMatrixAfter
    split
    · rfl
    · split
      · rfl
      · simp [buildTree]
  · unfold searchQuerySetMatrixAfter
    rcases hns with h | h
    · simp [h]
    · by_cases hn : s.naive <;> simp [h, hn]

/-- Witness for C9 (amended) at concrete inputs. -/
theorem caller_matrix_preserved_unless_rearranged_witness :
    (wStateSingle.naive = true ∨ wStateSingle.singleMode = true) ∧
    ((rangeSearchFromData false wSwap wRootPair 0 [(0 : ℤ), 1] false false).2
        = [(0 : ℤ), 1] ∧
      (rangeSearchFromData true wSwap wRootPair 0 [(0 : ℤ), 1] true false).2
        = [(0 : ℤ), 1] ∧
      searchQuerySetMatrixAfter false wStateSingle wSwap wRootPair
        [(5 : ℤ), 0] = [(5 : ℤ), 0] ∧
      searchQuerySetMatrixAfter true wStateSingle wSwap wRootPair
        [(5 : ℤ), 0] = [(5 : ℤ), 0] ∧
      (rangeSearchFromData true wSwap wRootPair 0 [(0 : ℤ), 1] false false).2
        = (wSwap [(0 : ℤ), 1]).map
            (fun k => List.getD [(0 : ℤ), 1] k default)) :=
  ⟨Or.inr rfl,
    caller_matrix_preserved_unless_rearranged wSwap wRootPair 0 [(0 : ℤ), 1]
      [(5 : ℤ), 0] false false wStateSingle true (Or.inr rfl)⟩

/-! ### Rule and buffer lemmas -/

theorem contains_iff (rng : MRange) (d : ℚ) :
    rng.contains d = true ↔ rng.lo ≤ d ∧ d ≤ rng.hi := by
  simp [MRange.contains]

theorem baseCase_eq {α : Type} [Inhabited α] (metric : α → α → ℚ)
    (rng : MRange) (sameSet : Bool) (qSet rSet : List α) (i j : Nat)
    (row : List Nat × List ℚ) :
    baseCase metric rng sameSet qSet rSet i j row =
      if good metric rng sameSet qSet rSet i j then
        (row.1 ++ [j], row.2 ++ [distOf metric qSet rSet i j])
      else row := by
  unfold baseCase good
  by_cases h1 : (sameSet && (i == j)) = true
  · simp [h1]
  · by_cases h2 : rng.contains (distOf metric qSet rSet i j) = true <;>
      simp [h1, h2]

theorem foldBase_spec {α : Type} [Inhabited α] (metric : α → α → ℚ)
    (rng : MRange) (sameSet : Bool) (qSet rSet : List α) (i : Nat)
    (js : List Nat) (row : List Nat × List ℚ) :
    foldBase metric rng sameSet qSet rSet i row js =
      (row.1 ++ js.filter (good metric rng sameSet qSet rSet i),
        row.2 ++ (js.filter (good metric rng sameSet qSet rSet i)).map
          (distOf metric qSet rSet i)) := by
  induction js generalizing row with
  | nil => simp [foldBase]
  | cons j js ih =>
      have h1 : foldBase metric rng sameSet qSet rSet i row (j :: js) =
          foldBase metric rng sameSet qSet rSet i
            (baseCase metric rng sameSet qSet rSet i j row) js := rfl
      rw [h1, ih, baseCase_eq]
      by_cases hg : good metric rng sameSet qSet rSet i j = true <;>
        simp [hg, List.filter_cons]

theorem foldl_applyBase_length {α : Type} [Inhabited α]
    (metric : α → α → ℚ) (rng : MRange) (sameSet : Bool)
    (qSet rSet : List α) (ps : List (Nat × Nat))
    (bufs : List (List Nat) × List (List ℚ)) :
    (ps.foldl (applyBase metric rng sameSet qSet rSet) bufs).1.length
        = bufs.1.length ∧
      (ps.foldl (applyBase metric rng sameSet qSet rSet) bufs).2.length
        = bufs.2.length := by
  induction ps generalizing bufs with
  | nil => exact ⟨rfl, rfl⟩
  | cons p ps ih =>
      rw [List.foldl_cons]
      refine ⟨?_, ?_⟩
      · rw [(ih _).1]; simp [applyBase]
      · rw [(ih _).2]; simp [applyBase]

theorem rowOf_applyBase_self {α : Type} [Inhabited α]
    (metric : α → α → ℚ) (rng : MRange) (sameSet : Bool)
    (qSet rSet : List α) (bufs : List (List Nat) × List (List ℚ))
    (i j : Nat) (hi : i < bufs.1.length) (hi2 : i < bufs.2.length) :
    rowOf (applyBase metric rng sameSet qSet rSet bufs (i, j)) i =
      baseCase metric rng sameSet qSet rSet i j (rowOf bufs i) := by
  unfold applyBase rowOf
  simp only [List.getD_eq_getElem?_getD, List.getElem?_set_self hi,
    List.getElem?_set_self hi2, Option.getD_some]

theorem rowOf_applyBase_ne {α : Type} [Inhabited α]
    (metric : α → α → ℚ) (rng : MRange) (sameSet : Bool)
    (qSet rSet : List α) (bufs : List (List Nat) × List (List ℚ))
    (p : Nat × Nat) (i : Nat) (hne : p.1 ≠ i) :
    rowOf (applyBase metric rng sameSet qSet rSet bufs p) i =
      rowOf bufs i := by
  unfold applyBase rowOf
  simp only [List.getD_eq_getElem?_getD, List.getElem?_set_ne hne]

theorem foldl_applyBase_rowOf {α : Type} [Inhabited α]
    (metric : α → α → ℚ) (rng : MRange) (sameSet : Bool)
    (qSet rSet : List α) (ps : List (Nat × Nat))
    (bufs : List (List Nat) × List (List ℚ)) (i : Nat)
    (hi : i < bufs.1.length) (hi2 : i < bufs.2.length) :
    rowOf (ps.foldl (applyBase metric rng sameSet qSet rSet) bufs) i =
      foldBase metric rng sameSet qSet rSet i (rowOf bufs i)
        ((ps.filter (fun p => p.1 == i)).map Prod.snd) := by
  induction ps generalizing bufs with
  | nil => simp [foldBase]
  | cons p ps ih =>
      rw [List.foldl_cons]
      by_cases ha : p.1 = i
      · rcases p with ⟨a, j⟩
        simp only at ha
        subst ha
        rw [ih _ (by simpa [applyBase] using hi) (by simpa [applyBase] using hi2),
          rowOf_applyBase_self metric rng sameSet qSet rSet bufs _ _ hi hi2]
        simp [List.filter_cons, foldBase]
      · rw [ih _ (by simpa [applyBase] using hi) (by simpa [applyBase] using hi2),
          rowOf_applyBase_ne metric rng sameSet qSet rSet bufs p i ha]
        have : (p.1 == i) = false := by simpa using ha
        simp [List.filter_cons, this]

theorem rowOf_initBufs (nq i : Nat) : rowOf (initBufs nq) i = ([], []) := by
  unfold rowOf initBufs
  simp [List.getD_eq_getElem?_getD, List.getElem?_replicate]
  constructor <;> split <;> rfl

theorem runRules_rowOf {α : Type} [Inhabited α] (metric : α → α → ℚ)
    (rng : MRange) (sameSet : Bool) (qSet rSet : List α) (nq : Nat)
    (ps : List (Nat × Nat)) (i : Nat) (hi : i < nq) :
    rowOf (runRules metric rng sameSet qSet rSet nq ps) i =
      ((((ps.filter (fun p => p.1 == i)).map Prod.snd).filter
          (good metric rng sameSet qSet rSet i)),
        (((ps.filter (fun p => p.1 == i)).map Prod.snd).filter
          (good metric rng sameSet qSet rSet i)).map
          (distOf metric qSet rSet i)) := by
  unfold runRules
  rw [foldl_applyBase_rowOf metric rng sameSet qSet rSet ps (initBufs nq) i
    (by simp [initBufs, hi]) (by simp [initBufs, hi])]
  rw [rowOf_initBufs, foldBase_spec]
  simp

theorem visitList_filter_map (xs : List Nat) (f : Nat → List Nat) (i : Nat)
    (hx : xs.Nodup) :
    ((xs.flatMap fun a => (f a).map fun b => (a, b)).filter
        (fun p => p.1 == i)).map Prod.snd
      = if i ∈ xs then f i else [] := by
  induction xs with
  | nil => simp
  | cons a xs ih =>
      have hnd := List.nodup_cons.mp hx
      rw [List.flatMap_cons, List.filter_append, List.map_append, ih hnd.2]
      by_cases ha : a = i
      · subst ha
        have h1 : ((List.map (fun b => (a, b)) (f a)).filter
              (fun p => p.1 == a)).map Prod.snd = f a := by
          simp [List.filter_map, Function.comp]
        simp [h1, hnd.1]
      · have h1 : ((List.map (fun b => (a, b)) (f a)).filter
              (fun p => p.1 == i)).map Prod.snd = [] := by
          simp [List.filter_map, Function.comp, ha]
        have h2 : (i ∈ a :: xs) ↔ (i ∈ xs) := by
          constructor
          · intro h
            rcases List.mem_cons.mp h with h | h
            · exact absurd h.symm ha
            · exact h
          · exact fun h => List.mem_cons_of_mem a h
        rw [h1, List.nil_append, if_congr h2 rfl rfl]

theorem naiveRows_rowOf {α : Type} [Inhabited α] (metric : α → α → ℚ)
    (rng : MRange) (sameSet : Bool) (qSet rSet : List α) (i : Nat)
    (hi : i < qSet.length) :
    rowOf (naiveRows metric rng sameSet qSet rSet) i =
      ((List.range rSet.length).filter (good metric rng sameSet qSet rSet i),
        ((List.range rSet.length).filter
          (good metric rng sameSet qSet rSet i)).map
          (distOf metric qSet rSet i)) := by
  unfold naiveRows naiveVisitList
  rw [runRules_rowOf metric rng sameSet qSet rSet _ _ i hi,
    visitList_filter_map _ _ i (List.nodup_range _)]
  simp [List.mem_range.mpr hi]

/-! ### Tree lemmas -/

theorem self_mem_subtrees (t : TNode) : t ∈ t.subtrees := by
  cases t <;> simp [TNode.subtrees]

theorem subtrees_left_subset (l r : TNode) :
    l.subtrees ⊆ (TNode.node l r).subtrees := by
  intro s hs
  simp only [TNode.subtrees, List.mem_cons, List.mem_append]
  exact Or.inr (Or.inl hs)

theorem subtrees_right_subset (l r : TNode) :
    r.subtrees ⊆ (TNode.node l r).subtrees := by
  intro s hs
  simp only [TNode.subtrees, List.mem_cons, List.mem_append]
  exact Or.inr (Or.inr hs)

theorem good_eq_false_of_out {α : Type} [Inhabited α] (metric : α → α → ℚ)
    (rng : MRange) (sameSet : Bool) (qSet rSet : List α) (i j : Nat)
    (h : distOf metric qSet rSet i j < rng.lo ∨
      rng.hi < distOf metric qSet rSet i j) :
    good metric rng sameSet qSet rSet i j = false := by
  unfold good
  have hc : rng.contains (distOf metric qSet rSet i j) = false := by
    rw [← Bool.not_eq_true, contains_iff]
    rintro ⟨h1, h2⟩
    rcases h with h | h
    · exact absurd h1 (not_le.mpr h)
    · exact absurd h2 (not_le.mpr h)
  simp [hc]

theorem singleVisits_filter_good {α : Type} [Inhabited α]
    (metric : α → α → ℚ) (rng : MRange) (sameSet : Bool)
    (qSet rSet : List α) (bmin bmax : Nat → TNode → ℚ) (rt : TNode)
    (i : Nat)
    (hs : ∀ t ∈ rt.subtrees, ∀ j ∈ t.pts,
      bmin i t ≤ distOf metric qSet rSet i j ∧
        distOf metric qSet rSet i j ≤ bmax i t) :
    (singleVisits rng bmin bmax i rt).filter
        (good metric rng sameSet qSet rSet i)
      = rt.pts.filter (good metric rng sameSet qSet rSet i) := by
  have hprune : ∀ t : TNode,
      (decide (bmax i t < rng.lo) || decide (rng.hi < bmin i t)) = true →
      (∀ j ∈ t.pts, bmin i t ≤ distOf metric qSet rSet i j ∧
        distOf metric qSet rSet i j ≤ bmax i t) →
      t.pts.filter (good metric rng sameSet qSet rSet i) = [] := by
    intro t hp hb
    rw [List.filter_eq_nil_iff]
    intro j hj
    simp only [Bool.or_eq_true, decide_eq_true_eq] at hp
    rcases hp with h | h
    · rw [good_eq_false_of_out metric rng sameSet qSet rSet i j
        (Or.inl (lt_of_le_of_lt (hb j hj).2 h))]
      exact Bool.false_ne_true
    · rw [good_eq_false_of_out metric rng sameSet qSet rSet i j
        (Or.inr (lt_of_lt_of_le h (hb j hj).1))]
      exact Bool.false_ne_true
  induction rt with
  | leaf ps =>
      rw [singleVisits]
      by_cases hp : (decide (bmax i (TNode.leaf ps) < rng.lo) ||
          decide (rng.hi < bmin i (TNode.leaf ps))) = true
      · rw [if_pos hp, List.filter_nil,
          hprune (TNode.leaf ps) hp (hs _ (self_mem_subtrees _))]
      · rw [if_neg hp]
        rfl
  | node l r ihl ihr =>
      rw [singleVisits]
      by_cases hp : (decide (bmax i (TNode.node l r) < rng.lo) ||
          decide (rng.hi < bmin i (TNode.node l r))) = true
      · rw [if_pos hp, List.filter_nil,
          hprune (TNode.node l r) hp (hs _ (self_mem_subtrees _))]
      · rw [if_neg hp]
        show ((singleVisits rng bmin bmax i l ++
            singleVisits rng bmin bmax i r).filter _) = _
        rw [List.filter_append,
          ihl (fun t ht => hs t (subtrees_left_subset l r ht)),
          ihr (fun t ht => hs t (subtrees_right_subset l r ht))]
        show _ = (l.pts ++ r.pts).filter _
        rw [List.filter_append]

theorem singleRows_rowOf {α : Type} [Inhabited α] (metric : α → α → ℚ)
    (rng : MRange) (sameSet : Bool) (qSet rSet : List α)
    (bmin bmax : Nat → TNode → ℚ) (rt : TNode) (i : Nat)
    (hi : i < qSet.length) :
    rowOf (singleRows metric rng sameSet qSet rSet bmin bmax rt) i =
      ((singleVisits rng bmin bmax i rt).filter
          (good metric rng sameSet qSet rSet i),
        ((singleVisits rng bmin bmax i rt).filter
          (good metric rng sameSet qSet rSet i)).map
          (distOf metric qSet rSet i)) := by
  unfold singleRows singleVisitList
  rw [runRules_rowOf metric rng sameSet qSet rSet _ _ i hi,
    visitList_filter_map _ _ i (List.nodup_range _)]
  simp [List.mem_range.mpr hi]

theorem dualVisits_leaf_leaf (rng : MRange) (nmin nmax : TNode → TNode → ℚ)
    (qs rs : List Nat) :
    dualVisits rng nmin nmax (.leaf qs) (.leaf rs) =
      if decide (nmax (.leaf qs) (.leaf rs) < rng.lo) ||
          decide (rng.hi < nmin (.leaf qs) (.leaf rs)) then []
      else qs.flatMap fun i => rs.map fun j => (i, j) := by
  rw [dualVisits.eq_def]

theorem dualVisits_leaf_node (rng : MRange) (nmin nmax : TNode → TNode → ℚ)
    (qs : List Nat) (l r : TNode) :
    dualVisits rng nmin nmax (.leaf qs) (.node l r) =
      if decide (nmax (.leaf qs) (.node l r) < rng.lo) ||
          decide (rng.hi < nmin (.leaf qs) (.node l r)) then []
      else dualVisits rng nmin nmax (.leaf qs) l ++
        dualVisits rng nmin nmax (.leaf qs) r := by
  rw [dualVisits.eq_def]

theorem dualVisits_node (rng : MRange) (nmin nmax : TNode → TNode → ℚ)
    (a b : TNode) (rt : TNode) :
    dualVisits rng nmin nmax (.node a b) rt =
      if decide (nmax (.node a b) rt < rng.lo) ||
          decide (rng.hi < nmin (.node a b) rt) then []
      else dualVisits rng nmin nmax a rt ++ dualVisits rng nmin nmax b rt := by
  cases rt <;> rw [dualVisits.eq_def]

theorem dualVisits_mem (rng : MRange) (nmin nmax : TNode → TNode → ℚ) :
    ∀ qt rt : TNode, ∀ p ∈ dualVisits rng nmin nmax qt rt,
      p.1 ∈ qt.pts ∧ p.2 ∈ rt.pts := by
  intro qt
  induction qt with
  | leaf qs =>
      intro rt
      induction rt with
      | leaf rs =>
          intro p hp
          rw [dualVisits_leaf_leaf] at hp
          split at hp
          · cases hp
          · rw [List.mem_flatMap] at hp
            rcases hp with ⟨a, ha, hp⟩
            rw [List.mem_map] at hp
            rcases hp with ⟨b, hb, rfl⟩
            exact ⟨ha, hb⟩
      | node l r ihl ihr =>
          intro p hp
          rw [dualVisits_leaf_node] at hp
          split at hp
          · cases hp
          · rcases List.mem_append.mp hp with h | h
            · rcases ihl p h with ⟨h1, h2⟩
              exact ⟨h1, List.mem_append.mpr (Or.inl h2)⟩
            · rcases ihr p h with ⟨h1, h2⟩
              exact ⟨h1, List.mem_append.mpr (Or.inr h2)⟩
  | node a b iha ihb =>
      intro rt p hp
      rw [dualVisits_node] at hp
      split at hp
      · cases hp
      · rcases List.mem_append.mp hp with h | h
        · rcases iha rt p h with ⟨h1, h2⟩
          exact ⟨List.mem_append.mpr (Or.inl h1), h2⟩
        · rcases ihb rt p h with ⟨h1, h2⟩
          exact ⟨List.mem_append.mpr (Or.inr h1), h2⟩

theorem dualVisits_filter_not_mem (rng : MRange)
    (nmin nmax : TNode → TNode → ℚ) (qt rt : TNode) (i : Nat)
    (hi : i ∉ qt.pts) :
    (dualVisits rng nmin nmax qt rt).filter (fun p => p.1 == i) = [] := by
  rw [List.filter_eq_nil_iff]
  intro p hp hbeq
  exact hi (eq_of_beq hbeq ▸ (dualVisits_mem rng nmin nmax qt rt p hp).1)

theorem pair_prune_filter {α : Type} [Inhabited α] (metric : α → α → ℚ)
    (rng : MRange) (sameSet : Bool) (qSet rSet : List α)
    (nmin nmax : TNode → TNode → ℚ) (qt rt : TNode)
    (hp : (decide (nmax qt rt < rng.lo) ||
      decide (rng.hi < nmin qt rt)) = true)
    (hb : ∀ a ∈ qt.pts, ∀ b ∈ rt.pts,
      nmin qt rt ≤ distOf metric qSet rSet a b ∧
        distOf metric qSet rSet a b ≤ nmax qt rt)
    (i : Nat) (hi : i ∈ qt.pts) :
    rt.pts.filter (good metric rng sameSet qSet rSet i) = [] := by
  rw [List.filter_eq_nil_iff]
  intro j hj
  simp only [Bool.or_eq_true, decide_eq_true_eq] at hp
  rcases hp with h | h
  · rw [good_eq_false_of_out metric rng sameSet qSet rSet i j
      (Or.inl (lt_of_le_of_lt (hb i hi j hj).2 h))]
    exact Bool.false_ne_true
  · rw [good_eq_false_of_out metric rng sameSet qSet rSet i j
      (Or.inr (lt_of_lt_of_le h (hb i hi j hj).1))]
    exact Bool.false_ne_true

theorem dualVisits_at_filter_good {α : Type} [Inhabited α]
    (metric : α → α → ℚ) (rng : MRange) (sameSet : Bool)
    (qSet rSet : List α) (nmin nmax : TNode → TNode → ℚ) :
    ∀ qt rt : TNode, qt.pts.Nodup →
      dualBoundsSound metric qSet rSet nmin nmax qt rt →
      ∀ i ∈ qt.pts,
        ((((dualVisits rng nmin nmax qt rt).filter
            (fun p => p.1 == i)).map Prod.snd).filter
          (good metric rng sameSet qSet rSet i))
        = rt.pts.filter (good metric rng sameSet qSet rSet i) := by
  intro qt
  induction qt with
  | leaf qs =>
      intro rt
      induction rt with
      | leaf rs =>
          intro hq hb i hi
          rw [dualVisits_leaf_leaf]
          by_cases hp : (decide (nmax (.leaf qs) (.leaf rs) < rng.lo) ||
              decide (rng.hi < nmin (.leaf qs) (.leaf rs))) = true
          · rw [if_pos hp]
            simp only [List.filter_nil, List.map_nil]
            exact (pair_prune_filter metric rng sameSet qSet rSet nmin nmax
              _ _ hp (fun a ha b hbb =>
                hb _ (self_mem_subtrees _) _ (self_mem_subtrees _) a ha b hbb)
              i hi).symm
          · rw [if_neg hp, visitList_filter_map qs (fun _ => rs) i hq,
              if_pos (show i ∈ qs from hi)]
            rfl
      | node l r ihl ihr =>
          intro hq hb i hi
          rw [dualVisits_leaf_node]
          by_cases hp : (decide (nmax (.leaf qs) (.node l r) < rng.lo) ||
              decide (rng.hi < nmin (.leaf qs) (.node l r))) = true
          · rw [if_pos hp]
            simp only [List.filter_nil, List.map_nil]
            exact (pair_prune_filter metric rng sameSet qSet rSet nmin nmax
              _ _ hp (fun a ha b hbb =>
                hb _ (self_mem_subtrees _) _ (self_mem_subtrees _) a ha b hbb)
              i hi).symm
          · rw [if_neg hp, List.filter_append, List.map_append,
              List.filter_append,
              ihl hq (fun s hs t ht => hb s hs t (subtrees_left_subset l r ht))
                i hi,
              ihr hq (fun s hs t ht => hb s hs t (subtrees_right_subset l r ht))
                i hi]
            show _ = (l.pts ++ r.pts).filter _
            rw [List.filter_append]
  | node a b iha ihb =>
      intro rt hq hb i hi
      rw [dualVisits_node]
      by_cases hp : (decide (nmax (.node a b) rt < rng.lo) ||
          decide (rng.hi < nmin (.node a b) rt)) = true
      · rw [if_pos hp]
        simp only [List.filter_nil, List.map_nil]
        exact (pair_prune_filter metric rng sameSet qSet rSet nmin nmax
          _ _ hp (fun x hx y hy =>
            hb _ (self_mem_subtrees _) _ (self_mem_subtrees _) x hx y hy)
          i hi).symm
      · rw [if_neg hp, List.filter_append, List.map_append,
          List.filter_append]
        have hnd := List.nodup_append.mp hq
        rcases List.mem_append.mp hi with hia | hib
        · have hnotb : i ∉ b.pts := fun hc => hnd.2.2 hia hc
          rw [dualVisits_filter_not_mem rng nmin nmax b rt i hnotb,
            iha rt hnd.1
              (fun s hs t ht => hb s (subtrees_left_subset a b hs) t ht)
              i hia]
          simp
        · have hnota : i ∉ a.pts := fun hc => hnd.2.2 hc hib
          rw [dualVisits_filter_not_mem rng nmin nmax a rt i hnota,
            ihb rt hnd.2.1
              (fun s hs t ht => hb s (subtrees_right_subset a b hs) t ht)
              i hib]
          simp

theorem zip_self_map {γ δ : Type} (l : List γ) (g : γ → δ) :
    l.zip (l.map g) = l.map (fun x => (x, g x)) := by
  induction l with
  | nil => rfl
  | cons x l ih => simp [ih]

theorem pairsAt_eq (bufs : List (List Nat) × List (List ℚ)) (i : Nat) :
    pairsAt bufs i = (rowOf bufs i).1.zip (rowOf bufs i).2 := rfl

/-- C1: for every reference set, query set, range, and metric — and any
query/reference trees and bound functions satisfying the spec's Spatial
Index contract (the trees cover the point sets exactly and the bounds
are sound) — the single-tree and dual-tree strategies return, per query
point, the same multiset of (reference index, distance) pairs as the
naive strategy: pruning never loses a true in-range pair and never adds
a false one. -/
theorem strategies_return_identical_sets {α : Type} [Inhabited α]
    (metric : α → α → ℚ) (rng : MRange) (qSet rSet : List α)
    (qt rt : TNode) (bmin bmax : Nat → TNode → ℚ)
    (nmin nmax : TNode → TNode → ℚ)
    (hqc : List.Perm qt.pts (List.range qSet.length))
    (hrc : List.Perm rt.pts (List.range rSet.length))
    (hsb : singleBoundsSound metric qSet rSet bmin bmax rt)
    (hdb : dualBoundsSound metric qSet rSet nmin nmax qt rt)
    (i : Nat) (hi : i < qSet.length) :
    List.Perm
      (pairsAt (singleRows metric rng false qSet rSet bmin bmax rt) i)
      (pairsAt (naiveRows metric rng false qSet rSet) i) ∧
    List.Perm
      (pairsAt (dualRows metric rng false qSet rSet nmin nmax qt rt
        qSet.length) i)
      (pairsAt (naiveRows metric rng false qSet rSet) i) := by
  have hnaive : pairsAt (naiveRows metric rng false qSet rSet) i =
      ((List.range rSet.length).filter
        (good metric rng false qSet rSet i)).map
        (fun j => (j, distOf metric qSet rSet i j)) := by
    rw [pairsAt_eq, naiveRows_rowOf metric rng false qSet rSet i hi,
      zip_self_map]
  have hsingle : pairsAt
      (singleRows metric rng false qSet rSet bmin bmax rt) i =
      (rt.pts.filter (good metric rng false qSet rSet i)).map
        (fun j => (j, distOf metric qSet rSet i j)) := by
    rw [pairsAt_eq, singleRows_rowOf metric rng false qSet rSet bmin bmax
      rt i hi, zip_self_map,
      singleVisits_filter_good metric rng false qSet rSet bmin bmax rt i
      (fun t ht j hj => hsb t ht i hi j hj)]
  have hdual : pairsAt (dualRows metric rng false qSet rSet nmin nmax qt rt
      qSet.length) i =
      (rt.pts.filter (good metric rng false qSet rSet i)).map
        (fun j => (j, distOf metric qSet rSet i j)) := by
    unfold dualRows
    rw [pairsAt_eq,
      runRules_rowOf metric rng false qSet rSet qSet.length _ i hi,
      zip_self_map,
      dualVisits_at_filter_good metric rng false qSet rSet nmin nmax qt rt
        ((List.nodup_range qSet.length).perm hqc.symm) hdb i
        (hqc.mem_iff.mpr (List.mem_range.mpr hi))]
  have hperm : List.Perm
      (rt.pts.filter (good metric rng false qSet rSet i))
      ((List.range rSet.length).filter
        (good metric rng false qSet rSet i)) :=
    hrc.filter (good metric rng false qSet rSet i)
  constructor
  · rw [hsingle, hnaive]
    exact hperm.map _
  · rw [hdual, hnaive]
    exact hperm.map _

/-- Witness for C1 at the spec's concrete scenario (one-dimensional):
reference set `[0, 3, 4]`, query `[0]`, range `[0, 5]`, with concrete
trees and sound bounds. -/
theorem strategies_return_identical_sets_witness :
    List.Perm
      (pairsAt (singleRows wMetric wRange false [(0 : ℤ)] [(0 : ℤ), 3, 4]
        wBmin wBmax wTree.root) 0)
      (pairsAt (naiveRows wMetric wRange false [(0 : ℤ)]
        [(0 : ℤ), 3, 4]) 0) ∧
    List.Perm
      (pairsAt (dualRows wMetric wRange false [(0 : ℤ)] [(0 : ℤ), 3, 4]
        wNmin wNmax (TNode.leaf [0]) wTree.root 1) 0)
      (pairsAt (naiveRows wMetric wRange false [(0 : ℤ)]
        [(0 : ℤ), 3, 4]) 0) :=
  strategies_return_identical_sets wMetric wRange [(0 : ℤ)]
    [(0 : ℤ), 3, 4] (TNode.leaf [0]) wTree.root wBmin wBmax wNmin wNmax
    (by decide) (by decide)
    (by unfold singleBoundsSound; decide)
    (by unfold dualBoundsSound; decide)
    0 (by decide)

/-- C6: a reference point `j` appears in query `i`'s result list iff its
distance to the query lies in the closed interval `[lo, hi]` — distance
exactly `lo` or exactly `hi` is included, strictly outside is excluded. -/
theorem in_range_iff_within_closed_interval {α : Type} [Inhabited α]
    (metric : α → α → ℚ) (rng : MRange) (qSet rSet : List α) (i j : Nat)
    (hi : i < qSet.length) :
    j ∈ (rowOf (naiveRows metric rng false qSet rSet) i).1 ↔
      j < rSet.length ∧ rng.lo ≤ distOf metric qSet rSet i j ∧
        distOf metric qSet rSet i j ≤ rng.hi := by
  rw [naiveRows_rowOf metric rng false qSet rSet i hi]
  simp only [List.mem_filter, List.mem_range, good, Bool.false_and,
    Bool.not_false, Bool.true_and]
  rw [and_congr_right_iff]
  intro _
  exact contains_iff rng (distOf metric qSet rSet i j)

/-- Witness for C6: with range `[1, 2]`, query point `0` and reference
points `[1, 2, 5]`: distance exactly `lo = 1` is included, distance
exactly `hi = 2` is included, distance `5 > hi` is excluded. -/
theorem in_range_iff_within_closed_interval_witness :
    0 ∈ (rowOf (naiveRows wMetric wRange2 false [(0 : ℤ)]
        [(1 : ℤ), 2, 5]) 0).1 ∧
    1 ∈ (rowOf (naiveRows wMetric wRange2 false [(0 : ℤ)]
        [(1 : ℤ), 2, 5]) 0).1 ∧
    2 ∉ (rowOf (naiveRows wMetric wRange2 false [(0 : ℤ)]
        [(1 : ℤ), 2, 5]) 0).1 := by
  refine ⟨?_, ?_, ?_⟩
  · exact (in_range_iff_within_closed_interval wMetric wRange2 [(0 : ℤ)]
      [(1 : ℤ), 2, 5] 0 0 (by decide)).mpr (by decide)
  · exact (in_range_iff_within_closed_interval wMetric wRange2 [(0 : ℤ)]
      [(1 : ℤ), 2, 5] 0 1 (by decide)).mpr (by decide)
  · intro h
    exact absurd ((in_range_iff_within_closed_interval wMetric wRange2
      [(0 : ℤ)] [(1 : ℤ), 2, 5] 0 2 (by decide)).mp h) (by decide)

theorem runRules_length {α : Type} [Inhabited α] (metric : α → α → ℚ)
    (rng : MRange) (sameSet : Bool) (qSet rSet : List α) (nq : Nat)
    (ps : List (Nat × Nat)) :
    (runRules metric rng sameSet qSet rSet nq ps).1.length = nq ∧
      (runRules metric rng sameSet qSet rSet nq ps).2.length = nq := by
  unfold runRules
  refine ⟨?_, ?_⟩
  · rw [(foldl_applyBase_length metric rng sameSet qSet rSet ps
      (initBufs nq)).1]
    simp [initBufs]
  · rw [(foldl_applyBase_length metric rng sameSet qSet rSet ps
      (initBufs nq)).2]
    simp [initBufs]

theorem rowOf_out_of_bounds (bufs : List (List Nat) × List (List ℚ))
    (i : Nat) (h1 : bufs.1.length ≤ i) (h2 : bufs.2.length ≤ i) :
    rowOf bufs i = ([], []) := by
  unfold rowOf
  rw [List.getD_eq_getElem?_getD, List.getD_eq_getElem?_getD,
    List.getElem?_eq_none h1, List.getElem?_eq_none h2]
  rfl

/-- C7: a range with `lo > hi` is handled without error by all three
strategies and yields an empty result sequence for every query point. -/
theorem empty_range_yields_empty_results {α : Type} [Inhabited α]
    (metric : α → α → ℚ) (rng : MRange) (sameSet : Bool)
    (qSet rSet : List α) (bmin bmax : Nat → TNode → ℚ)
    (nmin nmax : TNode → TNode → ℚ) (qt rt : TNode) (nq : Nat)
    (hlt : rng.hi < rng.lo) (i : Nat) :
    rowOf (naiveRows metric rng sameSet qSet rSet) i = ([], []) ∧
    rowOf (singleRows metric rng sameSet qSet rSet bmin bmax rt) i
      = ([], []) ∧
    rowOf (dualRows metric rng sameSet qSet rSet nmin nmax qt rt nq) i
      = ([], []) := by
  have hg : ∀ j, good metric rng sameSet qSet rSet i j = false := by
    intro j
    apply good_eq_false_of_out
    by_cases h : distOf metric qSet rSet i j < rng.lo
    · exact Or.inl h
    · exact Or.inr (lt_of_lt_of_le hlt (not_lt.mp h))
  have hfilter : ∀ l : List Nat,
      l.filter (good metric rng sameSet qSet rSet i) = [] := fun l =>
    List.filter_eq_nil_iff.mpr fun j _ => by
      rw [hg j]; exact Bool.false_ne_true
  refine ⟨?_, ?_, ?_⟩
  · by_cases hi : i < qSet.length
    · rw [naiveRows_rowOf metric rng sameSet qSet rSet i hi, hfilter]
      simp
    · exact rowOf_out_of_bounds _ i
        (le_of_not_lt (by
          rw [show (naiveRows metric rng sameSet qSet rSet).1.length
            = qSet.length from (runRules_length _ _ _ _ _ _ _).1]
          exact hi))
        (le_of_not_lt (by
          rw [show (naiveRows metric rng sameSet qSet rSet).2.length
            = qSet.length from (runRules_length _ _ _ _ _ _ _).2]
          exact hi))
  · by_cases hi : i < qSet.length
    · rw [singleRows_rowOf metric rng sameSet qSet rSet bmin bmax rt i hi,
        hfilter]
      simp
    · exact rowOf_out_of_bounds _ i
        (le_of_not_lt (by
          rw [show (singleRows metric rng sameSet qSet rSet bmin bmax
            rt).1.length = qSet.length from (runRules_length _ _ _ _ _ _ _).1]
          exact hi))
        (le_of_not_lt (by
          rw [show (singleRows metric rng sameSet qSet rSet bmin bmax
            rt).2.length = qSet.length from (runRules_length _ _ _ _ _ _ _).2]
          exact hi))
  · by_cases hi : i < nq
    · unfold dualRows
      rw [runRules_rowOf metric rng sameSet qSet rSet nq _ i hi, hfilter]
      simp
    · exact rowOf_out_of_bounds _ i
        (le_of_not_lt (by
          rw [show (dualRows metric rng sameSet qSet rSet nmin nmax qt rt
            nq).1.length = nq from (runRules_length _ _ _ _ _ _ _).1]
          exact hi))
        (le_of_not_lt (by
          rw [show (dualRows metric rng sameSet qSet rSet nmin nmax qt rt
            nq).2.length = nq from (runRules_length _ _ _ _ _ _ _).2]
          exact hi))

/-- Witness for C7 at concrete inputs: range `[3, 1]` (empty interval)
over the concrete scenario yields empty rows for query 0 under all
three strategies. -/
theorem empty_range_yields_empty_results_witness :
    wRangeEmpty.hi < wRangeEmpty.lo ∧
    (rowOf (naiveRows wMetric wRangeEmpty false [(0 : ℤ)]
        [(0 : ℤ), 3, 4]) 0 = ([], []) ∧
      rowOf (singleRows wMetric wRangeEmpty false [(0 : ℤ)]
        [(0 : ℤ), 3, 4] wBmin wBmax wTree.root) 0 = ([], []) ∧
      rowOf (dualRows wMetric wRangeEmpty false [(0 : ℤ)]
        [(0 : ℤ), 3, 4] wNmin wNmax (TNode.leaf [0]) wTree.root 1) 0
        = ([], [])) :=
  ⟨by decide,
    empty_range_yields_empty_results wMetric wRangeEmpty false [(0 : ℤ)]
      [(0 : ℤ), 3, 4] wBmin wBmax wNmin wNmax (TNode.leaf [0]) wTree.root
      1 (by decide) 0⟩

/-! ### Remapping (scatter) lemmas -/

theorem foldl_set_length {γ : Type} (is : List Nat) (pos : Nat → Nat)
    (val : Nat → γ) (init : List γ) :
    (is.foldl (fun acc i => acc.set (pos i) (val i)) init).length
      = init.length := by
  induction is generalizing init with
  | nil => rfl
  | cons i is ih =>
      rw [List.foldl_cons, ih]
      exact List.length_set init (pos i) (val i)

theorem foldl_set_getD_of_notin {γ : Type} (d : γ) (is : List Nat)
    (pos : Nat → Nat) (val : Nat → γ) (init : List γ) (q : Nat)
    (h : ∀ i ∈ is, pos i ≠ q) :
    (is.foldl (fun acc i => acc.set (pos i) (val i)) init).getD q d
      = init.getD q d := by
  induction is generalizing init with
  | nil => rfl
  | cons i is ih =>
      rw [List.foldl_cons,
        ih _ (fun a ha => h a (List.mem_cons_of_mem i ha)),
        List.getD_eq_getElem?_getD, List.getD_eq_getElem?_getD,
        List.getElem?_set_ne (h i (List.mem_cons_self i is))]

theorem foldl_set_getD_mem {γ : Type} (d : γ) (is : List Nat)
    (pos : Nat → Nat) (val : Nat → γ) (init : List γ) (hnd : is.Nodup)
    (hinj : ∀ a ∈ is, ∀ b ∈ is, pos a = pos b → a = b)
    (i : Nat) (hi : i ∈ is) (hlen : pos i < init.length) :
    (is.foldl (fun acc a => acc.set (pos a) (val a)) init).getD (pos i) d
      = val i := by
  induction is generalizing init with
  | nil => cases hi
  | cons a as ih =>
      rw [List.foldl_cons]
      have hnd2 := List.nodup_cons.mp hnd
      rcases List.mem_cons.mp hi with heq | hmem
      · subst heq
        rw [foldl_set_getD_of_notin d as pos val _ (pos i) ?notin]
        · rw [List.getD_eq_getElem?_getD, List.getElem?_set_self hlen]
          rfl
        case notin =>
          intro b hb heq2
          exact hnd2.1 (hinj i hi b (List.mem_cons_of_mem i hb) heq2.symm ▸ hb)
      · exact ih (init.set (pos a) (val a)) hnd2.2
          (fun x hx y hy =>
            hinj x (List.mem_cons_of_mem a hx) y (List.mem_cons_of_mem a hy))
          hmem (by rw [List.length_set]; exact hlen)

theorem scatterRows_length {β : Type} (mapping : List Nat) (nq : Nat)
    (rows : List (List β)) : (scatterRows mapping nq rows).length = nq := by
  unfold scatterRows
  rw [foldl_set_length]
  exact List.length_replicate nq []

theorem perm_getD_lt (mapping : List Nat) (nq : Nat)
    (hperm : List.Perm mapping (List.range nq)) (i : Nat) (hi : i < nq) :
    mapping.getD i 0 < nq := by
  have hlen : mapping.length = nq := by
    rw [hperm.length_eq, List.length_range]
  have hi2 : i < mapping.length := by rw [hlen]; exact hi
  have hmem : mapping.getD i 0 ∈ mapping := by
    rw [List.getD_eq_getElem?_getD, List.getElem?_eq_getElem hi2]
    exact List.getElem_mem hi2
  exact List.mem_range.mp (hperm.mem_iff.mp hmem)

theorem perm_getD_inj (mapping : List Nat) (nq : Nat)
    (hperm : List.Perm mapping (List.range nq)) (a b : Nat) (ha : a < nq)
    (hb : b < nq) (heq : mapping.getD a 0 = mapping.getD b 0) : a = b := by
  have hlen : mapping.length = nq := by
    rw [hperm.length_eq, List.length_range]
  have hnd : mapping.Nodup := hperm.symm.nodup (List.nodup_range nq)
  have ha2 : a < mapping.length := by rw [hlen]; exact ha
  have hb2 : b < mapping.length := by rw [hlen]; exact hb
  rw [List.getD_eq_getElem?_getD, List.getD_eq_getElem?_getD,
    List.getElem?_eq_getElem ha2, List.getElem?_eq_getElem hb2] at heq
  exact (hnd.getElem_inj_iff).mp heq

theorem perm_getD_surj (mapping : List Nat) (nq : Nat)
    (hperm : List.Perm mapping (List.range nq)) (q : Nat) (hq : q < nq) :
    ∃ i, i < nq ∧ mapping.getD i 0 = q := by
  have hlen : mapping.length = nq := by
    rw [hperm.length_eq, List.length_range]
  have hq2 : q ∈ mapping := hperm.mem_iff.mpr (List.mem_range.mpr hq)
  rcases List.mem_iff_getElem.mp hq2 with ⟨n, hn, he⟩
  refine ⟨n, by rw [← hlen]; exact hn, ?_⟩
  rw [List.getD_eq_getElem?_getD, List.getElem?_eq_getElem hn]
  exact he

theorem scatterRows_getD {β : Type} (mapping : List Nat) (nq : Nat)
    (rows : List (List β))
    (hperm : List.Perm mapping (List.range nq)) (i : Nat) (hi : i < nq) :
    (scatterRows mapping nq rows).getD (mapping.getD i 0) []
      = rows.getD i [] := by
  unfold scatterRows
  exact foldl_set_getD_mem [] (List.range nq) (fun a => mapping.getD a 0)
    (fun a => rows.getD a []) _ (List.nodup_range nq)
    (fun a ha b hb heq => perm_getD_inj mapping nq hperm a b
      (List.mem_range.mp ha) (List.mem_range.mp hb) heq)
    i (List.mem_range.mpr hi)
    (by rw [List.length_replicate]; exact perm_getD_lt mapping nq hperm i hi)

theorem getD_out_of_bounds {γ : Type} (d : γ) (l : List γ) (i : Nat)
    (h : l.length ≤ i) : l.getD i d = d := by
  rw [List.getD_eq_getElem?_getD, List.getElem?_eq_none h]
  rfl

theorem getD_map_lt {γ δ : Type} (g : γ → δ) (dg : δ) (d : γ) (l : List γ)
    (k : Nat) (hk : k < l.length) :
    (l.map g).getD k dg = g (l.getD k d) := by
  rw [List.getD_eq_getElem?_getD, List.getD_eq_getElem?_getD,
    List.getElem?_map, List.getElem?_eq_getElem hk]
  rfl

/-! ### Self-search exclusion -/

theorem good_self_false {α : Type} [Inhabited α] (metric : α → α → ℚ)
    (rng : MRange) (qSet rSet : List α) (i : Nat) :
    good metric rng true qSet rSet i i = false := by
  unfold good
  simp

theorem runRules_self_not_mem {α : Type} [Inhabited α] (metric : α → α → ℚ)
    (rng : MRange) (qSet rSet : List α) (n : Nat) (ps : List (Nat × Nat))
    (i : Nat) :
    i ∉ (runRules metric rng true qSet rSet n ps).1.getD i [] := by
  by_cases hi : i < n
  · have h := congrArg Prod.fst (runRules_rowOf metric rng true qSet rSet n
      ps i hi)
    rw [show (rowOf (runRules metric rng true qSet rSet n ps) i).1 =
        (runRules metric rng true qSet rSet n ps).1.getD i [] from rfl] at h
    rw [h]
    intro hmem
    have hg := (List.mem_filter.mp hmem).2
    rw [good_self_false] at hg
    exact Bool.false_ne_true hg
  · rw [getD_out_of_bounds [] _ i (by
      rw [(runRules_length metric rng true qSet rSet n ps).1]
      exact le_of_not_lt hi)]
    exact List.not_mem_nil i

theorem singleVisits_subset_pts (rng : MRange) (bmin bmax : Nat → TNode → ℚ)
    (i : Nat) (t : TNode) : singleVisits rng bmin bmax i t ⊆ t.pts := by
  induction t with
  | leaf ps =>
      rw [singleVisits]
      split
      · exact List.nil_subset _
      · exact fun x hx => hx
  | node l r ihl ihr =>
      rw [singleVisits]
      split
      · exact List.nil_subset _
      · intro x hx
        rcases List.mem_append.mp hx with h | h
        · exact List.mem_append.mpr (Or.inl (ihl h))
        · exact List.mem_append.mpr (Or.inr (ihr h))

theorem remapBoth_self_not_mem {α : Type} [Inhabited α]
    (metric : α → α → ℚ) (rng : MRange) (qSet rSet : List α) (n : Nat)
    (ps : List (Nat × Nat)) (oFNR : List Nat)
    (hperm : List.Perm oFNR (List.range n))
    (hsnd : ∀ p ∈ ps, p.2 < n) (i : Nat) :
    i ∉ (remapBoth oFNR oFNR n
      (runRules metric rng true qSet rSet n ps)).1.getD i [] := by
  by_cases hi : i < n
  · rcases perm_getD_surj oFNR n hperm i hi with ⟨k, hk, hkeq⟩
    unfold remapBoth
    rw [← hkeq, scatterRows_getD _ n _ hperm k hk]
    have hklen : k < (runRules metric rng true qSet rSet n ps).1.length := by
      rw [(runRules_length metric rng true qSet rSet n ps).1]
      exact hk
    rw [getD_map_lt _ [] [] _ k hklen]
    intro hmem
    rw [List.mem_map] at hmem
    rcases hmem with ⟨j, hj, hfj⟩
    have hchar := congrArg Prod.fst (runRules_rowOf metric rng true qSet
      rSet n ps k hk)
    rw [show (rowOf (runRules metric rng true qSet rSet n ps) k).1 =
        (runRules metric rng true qSet rSet n ps).1.getD k [] from rfl]
      at hchar
    rw [hchar] at hj
    have hj2 := List.mem_filter.mp hj
    have hjn : j < n := by
      have hj3 := hj2.1
      rw [List.mem_map] at hj3
      rcases hj3 with ⟨p, hp, rfl⟩
      exact hsnd p (List.mem_filter.mp hp).1
    have hjk : j = k := perm_getD_inj oFNR n hperm j k hjn hk hfj
    subst hjk
    have hg := hj2.2
    rw [good_self_false] at hg
    exact Bool.false_ne_true hg
  · unfold remapBoth
    rw [getD_out_of_bounds [] _ i (by
      rw [scatterRows_length]
      exact le_of_not_lt hi)]
    exact List.not_mem_nil i

/-- C8: in the self-search overload (no query set; the reference set
doubles as the query set), no query point ever appears in its own result
list — the dedicated self-exclusion flag passed to the Rule suppresses
the `(i, i)` base case even when distance 0 lies inside `[lo, hi]` — and
the exclusion survives the index remapping performed for an internally
built, rearranging reference tree. -/
theorem self_search_excludes_self {α : Type} [Inhabited α]
    (rearranges : Bool) (s : RangeSearchState α)
    (bmin bmax : Nat → TNode → ℚ) (nmin nmax : TNode → TNode → ℚ)
    (metric : α → α → ℚ) (rng : MRange) (i : Nat)
    (hcov : ∀ j ∈ (refRootOf s).pts, j < s.referenceSet.length)
    (hperm : s.treeOwner = true → rearranges = true →
      List.Perm s.oldFromNewReferences
        (List.range s.referenceSet.length)) :
    i ∉ (searchSelf rearranges s bmin bmax nmin nmax metric rng).1.getD
      i [] := by
  obtain ⟨ps, hps, hsnd⟩ : ∃ ps,
      (if s.naive then
        naiveRows metric rng true s.referenceSet s.referenceSet
      else if s.singleMode then
        singleRows metric rng true s.referenceSet s.referenceSet bmin bmax
          (refRootOf s)
      else
        dualRows metric rng true s.referenceSet s.referenceSet nmin nmax
          (refRootOf s) (refRootOf s) s.referenceSet.length) =
        runRules metric rng true s.referenceSet s.referenceSet
          s.referenceSet.length ps ∧
      ∀ p ∈ ps, p.2 < s.referenceSet.length := by
    by_cases h1 : s.naive
    · refine ⟨naiveVisitList s.referenceSet.length s.referenceSet.length,
        by rw [if_pos h1]; rfl, ?_⟩
      intro p hp
      unfold naiveVisitList at hp
      rw [List.mem_flatMap] at hp
      rcases hp with ⟨a, ha, hp⟩
      rw [List.mem_map] at hp
      rcases hp with ⟨b, hb, rfl⟩
      exact List.mem_range.mp hb
    · by_cases h2 : s.singleMode
      · refine ⟨singleVisitList rng bmin bmax s.referenceSet.length
          (refRootOf s), by rw [if_neg h1, if_pos h2]; rfl, ?_⟩
        intro p hp
        unfold singleVisitList at hp
        rw [List.mem_flatMap] at hp
        rcases hp with ⟨a, ha, hp⟩
        rw [List.mem_map] at hp
        rcases hp with ⟨b, hb, rfl⟩
        exact hcov b (singleVisits_subset_pts rng bmin bmax a (refRootOf s) hb)
      · refine ⟨dualVisits rng nmin nmax (refRootOf s) (refRootOf s),
          by rw [if_neg h1, if_neg h2]; rfl, ?_⟩
        intro p hp
        exact hcov p.2 (dualVisits_mem rng nmin nmax _ _ p hp).2
  have hdef : searchSelf rearranges s bmin bmax nmin nmax metric rng =
      (if s.treeOwner && rearranges then
        remapBoth s.oldFromNewReferences s.oldFromNewReferences
          s.referenceSet.length
          (runRules metric rng true s.referenceSet s.referenceSet
            s.referenceSet.length ps)
      else
        runRules metric rng true s.referenceSet s.referenceSet
          s.referenceSet.length ps) := by
    simp only [searchSelf]
    rw [hps]
  rw [hdef]
  by_cases hro : (s.treeOwner && rearranges) = true
  · rw [if_pos hro]
    have hand : s.treeOwner = true ∧ rearranges = true := by simpa using hro
    exact remapBoth_self_not_mem metric rng s.referenceSet s.referenceSet
      s.referenceSet.length ps s.oldFromNewReferences
      (hperm hand.1 hand.2) hsnd i
  · rw [if_neg hro]
    exact runRules_self_not_mem metric rng s.referenceSet s.referenceSet
      s.referenceSet.length ps i

/-- Witness for C8 at concrete inputs: the owning orchestrator over
`[0, 1]` with the rearranging (swap) tree, range `[0, 5]` (which
contains 0): point 0 is absent from its own result row. -/
theorem self_search_excludes_self_witness :
    ((∀ j ∈ (refRootOf wStateOwner).pts,
        j < wStateOwner.referenceSet.length) ∧
      (wStateOwner.treeOwner = true → true = true →
        List.Perm wStateOwner.oldFromNewReferences
          (List.range wStateOwner.referenceSet.length))) ∧
    0 ∉ (searchSelf true wStateOwner wBmin wBmax wNmin wNmax wMetric
      wRange).1.getD 0 [] :=
  ⟨⟨by decide, by decide⟩,
    self_search_excludes_self true wStateOwner wBmin wBmax wNmin wNmax
      wMetric wRange 0 (by decide) (by decide)⟩

/-! ### Buffer well-formedness -/

theorem getD_replicate_nil {γ : Type} (nq q : Nat) :
    (List.replicate nq ([] : List γ)).getD q [] = [] := by
  rw [List.getD_eq_getElem?_getD, List.getElem?_replicate]
  split <;> rfl

theorem foldl_set_parallel {β γ : Type} (R : List β → List γ → Prop)
    (is : List Nat) (pos : Nat → Nat) (val1 : Nat → List β)
    (val2 : Nat → List γ) (init1 : List (List β)) (init2 : List (List γ))
    (hlen : init1.length = init2.length)
    (hinit : ∀ q, R (init1.getD q []) (init2.getD q []))
    (hval : ∀ i ∈ is, R (val1 i) (val2 i)) :
    ∀ q, R ((is.foldl (fun acc i => acc.set (pos i) (val1 i)) init1).getD
        q [])
      ((is.foldl (fun acc i => acc.set (pos i) (val2 i)) init2).getD
        q []) := by
  induction is generalizing init1 init2 with
  | nil => exact hinit
  | cons i is ih =>
      intro q
      rw [List.foldl_cons, List.foldl_cons]
      refine ih (init1.set (pos i) (val1 i)) (init2.set (pos i) (val2 i))
        (by rw [List.length_set, List.length_set, hlen]) ?_
        (fun a ha => hval a (List.mem_cons_of_mem i ha)) q
      intro q2
      by_cases hlt : pos i < init1.length
      · by_cases hq : pos i = q2
        · subst hq
          rw [List.getD_eq_getElem?_getD, List.getElem?_set_self hlt,
            List.getD_eq_getElem?_getD,
            List.getElem?_set_self (by rw [← hlen]; exact hlt)]
          exact hval i (List.mem_cons_self i is)
        · rw [List.getD_eq_getElem?_getD, List.getElem?_set_ne hq,
            List.getD_eq_getElem?_getD, List.getElem?_set_ne hq,
            ← List.getD_eq_getElem?_getD _ _ ([] : List β),
            ← List.getD_eq_getElem?_getD _ _ ([] : List γ)]
          exact hinit q2
      · rw [List.set_eq_of_length_le (le_of_not_lt hlt),
          List.set_eq_of_length_le
            (le_of_not_lt (by rw [← hlen]; exact hlt))]
        exact hinit q2

theorem runRules_rows_eq_length {α : Type} [Inhabited α]
    (metric : α → α → ℚ) (rng : MRange) (sameSet : Bool)
    (qSet rSet : List α) (nq : Nat) (ps : List (Nat × Nat)) (i : Nat) :
    ((runRules metric rng sameSet qSet rSet nq ps).1.getD i []).length
      = ((runRules metric rng sameSet qSet rSet nq ps).2.getD i []).length := by
  by_cases hi : i < nq
  · have h1 := congrArg Prod.fst
      (runRules_rowOf metric rng sameSet qSet rSet nq ps i hi)
    have h2 := congrArg Prod.snd
      (runRules_rowOf metric rng sameSet qSet rSet nq ps i hi)
    rw [show (rowOf (runRules metric rng sameSet qSet rSet nq ps) i).1 =
        (runRules metric rng sameSet qSet rSet nq ps).1.getD i []
        from rfl] at h1
    rw [show (rowOf (runRules metric rng sameSet qSet rSet nq ps) i).2 =
        (runRules metric rng sameSet qSet rSet nq ps).2.getD i []
        from rfl] at h2
    rw [h1, h2, List.length_map]
  · rw [getD_out_of_bounds [] _ i (by
        rw [(runRules_length metric rng sameSet qSet rSet nq ps).1]
        exact le_of_not_lt hi),
      getD_out_of_bounds [] _ i (by
        rw [(runRules_length metric rng sameSet qSet rSet nq ps).2]
        exact le_of_not_lt hi)]
    rfl


theorem remapBoth_wf (oFNQ oFNR : List Nat) (nq : Nat)
    (raw : List (List Nat) × List (List ℚ))
    (hlen1 : raw.1.length = nq) (hlen2 : raw.2.length = nq)
    (hrows : ∀ i, (raw.1.getD i []).length = (raw.2.getD i []).length) :
    (remapBoth oFNQ oFNR nq raw).1.length = nq ∧
    (remapBoth oFNQ oFNR nq raw).2.length = nq ∧
    ∀ i, ((remapBoth oFNQ oFNR nq raw).1.getD i []).length
      = ((remapBoth oFNQ oFNR nq raw).2.getD i []).length := by
  refine ⟨scatterRows_length _ _ _, scatterRows_length _ _ _, ?_⟩
  intro q
  unfold remapBoth scatterRows
  refine foldl_set_parallel (fun a b => a.length = b.length) _ _ _ _ _ _
    (by rw [List.length_replicate, List.length_replicate]) ?_ ?_ q
  · intro q2
    rw [getD_replicate_nil, getD_replicate_nil]
    rfl
  · intro i _
    by_cases hi : i < raw.1.length
    · rw [getD_map_lt _ [] [] raw.1 i hi, List.length_map]
      exact hrows i
    · rw [getD_out_of_bounds [] _ i
          (by rw [List.length_map]; exact le_of_not_lt hi),
        getD_out_of_bounds [] _ i
          (by rw [hlen2, ← hlen1]; exact le_of_not_lt hi)]
      rfl

theorem remapQueries_wf (oFNQ : List Nat) (nq : Nat)
    (raw : List (List Nat) × List (List ℚ))
    (hlen1 : raw.1.length = nq) (hlen2 : raw.2.length = nq)
    (hrows : ∀ i, (raw.1.getD i []).length = (raw.2.getD i []).length) :
    (remapQueries oFNQ nq raw).1.length = nq ∧
    (remapQueries oFNQ nq raw).2.length = nq ∧
    ∀ i, ((remapQueries oFNQ nq raw).1.getD i []).length
      = ((remapQueries oFNQ nq raw).2.getD i []).length := by
  refine ⟨scatterRows_length _ _ _, scatterRows_length _ _ _, ?_⟩
  intro q
  unfold remapQueries scatterRows
  refine foldl_set_parallel (fun a b => a.length = b.length) _ _ _ _ _ _
    (by rw [List.length_replicate, List.length_replicate]) ?_ ?_ q
  · intro q2
    rw [getD_replicate_nil, getD_replicate_nil]
    rfl
  · intro i _
    exact hrows i

theorem remapRefs_wf (oFNR : List Nat) (nq : Nat)
    (raw : List (List Nat) × List (List ℚ))
    (hlen1 : raw.1.length = nq) (hlen2 : raw.2.length = nq)
    (hrows : ∀ i, (raw.1.getD i []).length = (raw.2.getD i []).length) :
    (remapRefs oFNR nq raw).1.length = nq ∧
    (remapRefs oFNR nq raw).2.length = nq ∧
    ∀ i, ((remapRefs oFNR nq raw).1.getD i []).length
      = ((remapRefs oFNR nq raw).2.getD i []).length := by
  refine ⟨by simp [remapRefs], by simp [remapRefs, hlen2], ?_⟩
  intro i
  unfold remapRefs
  by_cases hi : i < nq
  · rw [getD_map_lt _ [] 0 (List.range nq) i
      (by rw [List.length_range]; exact hi)]
    have hri : (List.range nq).getD i 0 = i := by
      rw [List.getD_eq_getElem?_getD,
        List.getElem?_eq_getElem (by rw [List.length_range]; exact hi)]
      simp [List.getElem_range]
    rw [hri, List.length_map]
    exact hrows i
  · rw [getD_out_of_bounds [] _ i
        (by rw [List.length_map, List.length_range]; exact le_of_not_lt hi),
      getD_out_of_bounds [] _ i (by rw [hlen2]; exact le_of_not_lt hi)]
    rfl

theorem searchSelf_decompose {α : Type} [Inhabited α] (rearranges : Bool)
    (s : RangeSearchState α) (bmin bmax : Nat → TNode → ℚ)
    (nmin nmax : TNode → TNode → ℚ) (metric : α → α → ℚ) (rng : MRange) :
    ∃ ps : List (Nat × Nat),
      searchSelf rearranges s bmin bmax nmin nmax metric rng =
        if s.treeOwner && rearranges then
          remapBoth s.oldFromNewReferences s.oldFromNewReferences
            s.referenceSet.length
            (runRules metric rng true s.referenceSet s.referenceSet
              s.referenceSet.length ps)
        else
          runRules metric rng true s.referenceSet s.referenceSet
            s.referenceSet.length ps := by
  by_cases h1 : s.naive
  · refine ⟨naiveVisitList s.referenceSet.length s.referenceSet.length, ?_⟩
    simp only [searchSelf]
    rw [if_pos h1]
    rfl
  · by_cases h2 : s.singleMode
    · refine ⟨singleVisitList rng bmin bmax s.referenceSet.length
        (refRootOf s), ?_⟩
      simp only [searchSelf]
      rw [if_neg h1, if_pos h2]
      rfl
    · refine ⟨dualVisits rng nmin nmax (refRootOf s) (refRootOf s), ?_⟩
      simp only [searchSelf]
      rw [if_neg h1, if_neg h2]
      rfl

theorem searchQuerySet_decompose {α : Type} [Inhabited α]
    (rearranges : Bool) (s : RangeSearchState α) (σq : List α → List Nat)
    (mkRoot : List α → TNode) (bmin bmax : Nat → TNode → ℚ)
    (nmin nmax : TNode → TNode → ℚ) (metric : α → α → ℚ) (rng : MRange)
    (querySet : List α) :
    ∃ (qS : List α) (ps : List (Nat × Nat)),
      searchQuerySet rearranges s σq mkRoot bmin bmax nmin nmax metric rng
          querySet =
        (let R := runRules metric rng false qS s.referenceSet
          querySet.length ps
        let oFNQ := if rearranges then σq querySet else []
        if rearranges then
          if !s.singleMode && !s.naive && s.treeOwner then
            remapBoth oFNQ s.oldFromNewReferences querySet.length R
          else if !s.singleMode && !s.naive then
            remapQueries oFNQ querySet.length R
          else if s.treeOwner then
            remapRefs s.oldFromNewReferences querySet.length R
          else R
        else R) := by
  by_cases h1 : s.naive
  · refine ⟨querySet,
      naiveVisitList querySet.length s.referenceSet.length, ?_⟩
    simp only [searchQuerySet]
    rw [if_pos h1]
    rfl
  · by_cases h2 : s.singleMode
    · refine ⟨querySet,
        singleVisitList rng bmin bmax querySet.length (refRootOf s), ?_⟩
      simp only [searchQuerySet]
      rw [if_neg h1, if_pos h2]
      rfl
    · refine ⟨(buildTree rearranges σq mkRoot 0 querySet).1.dataset,
        dualVisits rng nmin nmax
          (buildTree rearranges σq mkRoot 0 querySet).1.root
          (refRootOf s), ?_⟩
      simp only [searchQuerySet]
      rw [if_neg h1, if_neg h2]
      rfl

/-- C10: after every successful `Search` call (any overload) the output
buffers hold exactly one entry per query point (self-search: per
reference point), the neighbor and distance rows of each query have
equal length position-wise, and pre-existing buffer contents are
discarded rather than merged (the caller-observable result is
independent of the buffers passed in). -/
theorem result_buffers_well_formed {α : Type} [Inhabited α]
    (rearranges : Bool) (s : RangeSearchState α) (σq : List α → List Nat)
    (mkRoot : List α → TNode) (bmin bmax : Nat → TNode → ℚ)
    (nmin nmax : TNode → TNode → ℚ) (metric : α → α → ℚ) (rng : MRange)
    (querySet : List α) (qTree : TreeRec α)
    (res : List (List Nat) × List (List ℚ))
    (nb nb2 : List (List Nat)) (db db2 : List (List ℚ)) :
    buffersWellFormed (searchQuerySet rearranges s σq mkRoot bmin bmax
      nmin nmax metric rng querySet) querySet.length ∧
    (searchWithQueryTree rearranges s qTree nmin nmax metric rng
        = Except.ok res →
      buffersWellFormed res qTree.dataset.length) ∧
    buffersWellFormed (searchSelf rearranges s bmin bmax nmin nmax metric
      rng) s.referenceSet.length ∧
    (s.singleMode = false → s.naive = false →
      searchWithQueryTreeRun rearranges s qTree nmin nmax metric rng nb db
        = searchWithQueryTreeRun rearranges s qTree nmin nmax metric rng
          nb2 db2) := by
  have hwfR : ∀ (qS : List α) (nq : Nat) (ps : List (Nat × Nat)),
      buffersWellFormed
        (runRules metric rng false qS s.referenceSet nq ps) nq :=
    fun qS nq ps => ⟨(runRules_length metric rng false qS s.referenceSet
        nq ps).1,
      (runRules_length metric rng false qS s.referenceSet nq ps).2,
      runRules_rows_eq_length metric rng false qS s.referenceSet nq ps⟩
  refine ⟨?_, ?_, ?_, ?_⟩
  · rcases searchQuerySet_decompose rearranges s σq mkRoot bmin bmax nmin
      nmax metric rng querySet with ⟨qS, ps, hdef⟩
    rw [hdef]
    simp only []
    rcases hwfR qS querySet.length ps with ⟨hl1, hl2, hl3⟩
    by_cases hr : rearranges
    · rw [if_pos hr]
      by_cases hc1 : (!s.singleMode && !s.naive && s.treeOwner) = true
      · rw [if_pos hc1]
        exact remapBoth_wf _ _ _ _ hl1 hl2 hl3
      · rw [if_neg hc1]
        by_cases hc2 : (!s.singleMode && !s.naive) = true
        · rw [if_pos hc2]
          exact remapQueries_wf _ _ _ hl1 hl2 hl3
        · rw [if_neg hc2]
          by_cases hc3 : s.treeOwner
          · rw [if_pos hc3]
            exact remapRefs_wf _ _ _ hl1 hl2 hl3
          · rw [if_neg hc3]
            exact ⟨hl1, hl2, hl3⟩
    · rw [if_neg hr]
      exact ⟨hl1, hl2, hl3⟩
  · intro hok
    unfold searchWithQueryTree at hok
    by_cases herr : (s.singleMode || s.naive) = true
    · rw [if_pos herr] at hok
      cases hok
    · rw [if_neg herr] at hok
      simp only [] at hok
      have hwfv := hwfR qTree.dataset qTree.dataset.length
        (dualVisits rng nmin nmax qTree.root (refRootOf s))
      by_cases hro : (s.treeOwner && rearranges) = true
      · rw [if_pos hro] at hok
        cases hok
        rcases hwfv with ⟨hl1, hl2, hl3⟩
        exact remapRefs_wf _ _ _ hl1 hl2 hl3
      · rw [if_neg hro] at hok
        cases hok
        exact hwfv
  · rcases searchSelf_decompose rearranges s bmin bmax nmin nmax metric
      rng with ⟨ps, hdef⟩
    rw [hdef]
    have hwfv : buffersWellFormed (runRules metric rng true s.referenceSet
        s.referenceSet s.referenceSet.length ps) s.referenceSet.length :=
      ⟨(runRules_length metric rng true s.referenceSet s.referenceSet
          s.referenceSet.length ps).1,
        (runRules_length metric rng true s.referenceSet s.referenceSet
          s.referenceSet.length ps).2,
        runRules_rows_eq_length metric rng true s.referenceSet
          s.referenceSet s.referenceSet.length ps⟩
    by_cases hro : (s.treeOwner && rearranges) = true
    · rw [if_pos hro]
      rcases hwfv with ⟨hl1, hl2, hl3⟩
      exact remapBoth_wf _ _ _ _ hl1 hl2 hl3
    · rw [if_neg hro]
      exact hwfv
  · intro hsm hnv
    unfold searchWithQueryTreeRun searchWithQueryTree
    rw [hsm, hnv, if_neg (by decide)]
    by_cases hro : (s.treeOwner && rearranges) = true
    · rw [if_pos hro]
    · rw [if_neg hro]

/-- Witness for C10 at concrete inputs: the owning orchestrator over
`[0, 1]`, a two-point query set, the query-tree overload's successful
result, and the self-search overload all produce well-formed buffers,
and the query-tree run is independent of the buffers passed in. -/
theorem result_buffers_well_formed_witness :
    buffersWellFormed (searchQuerySet true wStateOwner wSwap wRootPair
      wBmin wBmax wNmin wNmax wMetric wRange [(5 : ℤ), 0]) 2 ∧
    buffersWellFormed wQtRes wTree.dataset.length ∧
    buffersWellFormed (searchSelf true wStateOwner wBmin wBmax wNmin
      wNmax wMetric wRange) 2 ∧
    searchWithQueryTreeRun true wStateOwner wTree wNmin wNmax wMetric
        wRange [[3]] [[4]]
      = searchWithQueryTreeRun true wStateOwner wTree wNmin wNmax wMetric
        wRange [] [] := by
  have h := result_buffers_well_formed true wStateOwner wSwap wRootPair
    wBmin wBmax wNmin wNmax wMetric wRange [(5 : ℤ), 0] wTree wQtRes
    [[3]] [] [[4]] []
  exact ⟨h.1, h.2.1 rfl, h.2.2.1, h.2.2.2 rfl rfl⟩

/-! ### Remapping restores original indices -/

theorem good_false_eq {α : Type} [Inhabited α] (metric : α → α → ℚ)
    (rng : MRange) (qSet rSet : List α) (i j : Nat) :
    good metric rng false qSet rSet i j
      = rng.contains (distOf metric qSet rSet i j) := by
  unfold good
  simp

theorem map_getD_range (l : List Nat) :
    (List.range l.length).map (fun i => l.getD i 0) = l := by
  refine List.ext_getElem (by simp) ?_
  intro n h1 h2
  rw [List.getElem_map]
  rw [List.getD_eq_getElem?_getD,
    List.getElem?_eq_getElem (by
      rw [List.getElem_range]
      exact h2)]
  rw [Option.getD_some]
  congr 1
  exact List.getElem_range n _

/-- C2: for a `Search` over a raw query set in dual-tree mode with a
rearranging tree type, the returned buffers are indexed by the caller's
original query positions and hold exactly the in-range pairs — the same
rows a non-reordering index would produce over the caller-visible
reference set — whether the reference tree was built internally
(`treeOwner`, both sides remapped through the permutation records) or
supplied externally (query-side remapping only, the external tree's own
dataset being the caller-visible reference set). -/
theorem search_remaps_to_original_indices {α : Type} [Inhabited α]
    (s : RangeSearchState α) (σq : List α → List Nat)
    (mkRoot : List α → TNode) (bmin bmax : Nat → TNode → ℚ)
    (nmin nmax : TNode → TNode → ℚ) (metric : α → α → ℚ) (rng : MRange)
    (querySet origRef : List α)
    (hnv : s.naive = false) (hsm : s.singleMode = false)
    (hσ : List.Perm (σq querySet) (List.range querySet.length))
    (hqt : List.Perm (buildTree true σq mkRoot 0 querySet).1.root.pts
      (List.range querySet.length))
    (hrt : List.Perm (refRootOf s).pts (List.range s.referenceSet.length))
    (hdb : dualBoundsSound metric
      (buildTree true σq mkRoot 0 querySet).1.dataset s.referenceSet
      nmin nmax (buildTree true σq mkRoot 0 querySet).1.root (refRootOf s))
    (hcase : (s.treeOwner = true ∧
        List.Perm s.oldFromNewReferences
          (List.range s.referenceSet.length) ∧
        origRef.length = s.referenceSet.length ∧
        ∀ k < s.referenceSet.length, s.referenceSet.getD k default
          = origRef.getD (s.oldFromNewReferences.getD k 0) default)
      ∨ (s.treeOwner = false ∧ origRef = s.referenceSet)) :
    ∀ q < querySet.length,
      List.Perm
        (pairsAt (searchQuerySet true s σq mkRoot bmin bmax nmin nmax
          metric rng querySet) q)
        (pairsAt (naiveRows metric rng false querySet origRef) q) := by
  intro q hq
  have hqdata : (buildTree true σq mkRoot 0 querySet).1.dataset
      = (σq querySet).map fun t => querySet.getD t default := by
    simp [buildTree]
  have hoFNQlen : (σq querySet).length = querySet.length := by
    rw [hσ.length_eq, List.length_range]
  -- the raw (internally indexed) dual-tree rows
  have hL : ∀ k, k < querySet.length → ∃ L : List Nat,
      rowOf (dualRows metric rng false
        (buildTree true σq mkRoot 0 querySet).1.dataset s.referenceSet
        nmin nmax (buildTree true σq mkRoot 0 querySet).1.root
        (refRootOf s) querySet.length) k
        = (L, L.map (distOf metric
            (buildTree true σq mkRoot 0 querySet).1.dataset
            s.referenceSet k)) ∧
      List.Perm L ((List.range s.referenceSet.length).filter
        (good metric rng false
          (buildTree true σq mkRoot 0 querySet).1.dataset
          s.referenceSet k)) := by
    intro k hk
    refine ⟨_, runRules_rowOf metric rng false _ s.referenceSet
      querySet.length (dualVisits rng nmin nmax _ (refRootOf s)) k hk, ?_⟩
    rw [dualVisits_at_filter_good metric rng false _ s.referenceSet nmin
      nmax _ (refRootOf s) ((List.nodup_range querySet.length).perm
        hqt.symm) hdb k (hqt.mem_iff.mpr (List.mem_range.mpr hk))]
    exact hrt.filter _
  -- naive over the original sets
  have hnaive : pairsAt (naiveRows metric rng false querySet origRef) q =
      ((List.range origRef.length).filter
        (good metric rng false querySet origRef q)).map
        (fun j => (j, distOf metric querySet origRef q j)) := by
    rw [pairsAt_eq, naiveRows_rowOf metric rng false querySet origRef q hq,
      zip_self_map]
  rcases perm_getD_surj (σq querySet) querySet.length hσ q hq
    with ⟨k, hk, hkeq⟩
  have hq_pt : (buildTree true σq mkRoot 0 querySet).1.dataset.getD k
      default = querySet.getD q default := by
    rw [hqdata, getD_map_lt _ default 0 (σq querySet) k
      (by rw [hoFNQlen]; exact hk), hkeq]
  rcases hL k hk with ⟨L, hLrow, hLperm⟩
  have hrow1 : (dualRows metric rng false
      (buildTree true σq mkRoot 0 querySet).1.dataset s.referenceSet
      nmin nmax (buildTree true σq mkRoot 0 querySet).1.root
      (refRootOf s) querySet.length).1.getD k [] = L :=
    congrArg Prod.fst hLrow
  have hrow2 : (dualRows metric rng false
      (buildTree true σq mkRoot 0 querySet).1.dataset s.referenceSet
      nmin nmax (buildTree true σq mkRoot 0 querySet).1.root
      (refRootOf s) querySet.length).2.getD k []
      = L.map (distOf metric
          (buildTree true σq mkRoot 0 querySet).1.dataset
          s.referenceSet k) :=
    congrArg Prod.snd hLrow
  have hRlen := runRules_length metric rng false
    (buildTree true σq mkRoot 0 querySet).1.dataset s.referenceSet
    querySet.length (dualVisits rng nmin nmax
      (buildTree true σq mkRoot 0 querySet).1.root (refRootOf s))
  rcases hcase with ⟨hto, hpr, hlenOR, hrel⟩ | ⟨hto, horig⟩
  · -- internally built reference tree: both sides remapped
    have hdef : searchQuerySet true s σq mkRoot bmin bmax nmin nmax metric
        rng querySet =
        remapBoth (σq querySet) s.oldFromNewReferences querySet.length
          (dualRows metric rng false
            (buildTree true σq mkRoot 0 querySet).1.dataset s.referenceSet
            nmin nmax (buildTree true σq mkRoot 0 querySet).1.root
            (refRootOf s) querySet.length) := by
      simp [searchQuerySet, hnv, hsm, hto]
    rw [hdef]
    have hfin1 : (remapBoth (σq querySet) s.oldFromNewReferences
        querySet.length (dualRows metric rng false
          (buildTree true σq mkRoot 0 querySet).1.dataset s.referenceSet
          nmin nmax (buildTree true σq mkRoot 0 querySet).1.root
          (refRootOf s) querySet.length)).1.getD q []
        = L.map (fun j => s.oldFromNewReferences.getD j 0) := by
      unfold remapBoth
      rw [← hkeq, scatterRows_getD _ querySet.length _ hσ k hk,
        getD_map_lt _ [] [] _ k
          (by unfold dualRows; rw [hRlen.1]; exact hk), hrow1]
    have hfin2 : (remapBoth (σq querySet) s.oldFromNewReferences
        querySet.length (dualRows metric rng false
          (buildTree true σq mkRoot 0 querySet).1.dataset s.referenceSet
          nmin nmax (buildTree true σq mkRoot 0 querySet).1.root
          (refRootOf s) querySet.length)).2.getD q []
        = L.map (distOf metric
            (buildTree true σq mkRoot 0 querySet).1.dataset
            s.referenceSet k) := by
      unfold remapBoth
      rw [← hkeq, scatterRows_getD _ querySet.length _ hσ k hk, hrow2]
    have hpairs : pairsAt (remapBoth (σq querySet) s.oldFromNewReferences
        querySet.length (dualRows metric rng false
          (buildTree true σq mkRoot 0 querySet).1.dataset s.referenceSet
          nmin nmax (buildTree true σq mkRoot 0 querySet).1.root
          (refRootOf s) querySet.length)) q
        = L.map (fun j => (s.oldFromNewReferences.getD j 0,
            distOf metric (buildTree true σq mkRoot 0 querySet).1.dataset
              s.referenceSet k j)) := by
      unfold pairsAt
      rw [hfin1, hfin2, List.zip_map']
    rw [hpairs, hnaive]
    refine List.Perm.trans (List.Perm.map _ hLperm) ?_
    have hstep : ((List.range s.referenceSet.length).filter
        (good metric rng false
          (buildTree true σq mkRoot 0 querySet).1.dataset
          s.referenceSet k)).map
          (fun j => (s.oldFromNewReferences.getD j 0,
            distOf metric (buildTree true σq mkRoot 0 querySet).1.dataset
              s.referenceSet k j))
        = (((List.range s.referenceSet.length).filter
            (fun j => good metric rng false querySet origRef q
              (s.oldFromNewReferences.getD j 0))).map
            (fun j => s.oldFromNewReferences.getD j 0)).map
            (fun t => (t, distOf metric querySet origRef q t)) := by
      rw [List.map_map]
      rw [List.filter_congr (fun j hj => ?_)]
      · refine List.map_congr_left (fun j hj => ?_)
        have hjn : j < s.referenceSet.length :=
          List.mem_range.mp (List.mem_filter.mp hj).1
        show _ = (s.oldFromNewReferences.getD j 0,
          distOf metric querySet origRef q
            (s.oldFromNewReferences.getD j 0))
        unfold distOf
        rw [hq_pt, hrel j hjn]
      · have hjn : j < s.referenceSet.length := List.mem_range.mp hj
        rw [good_false_eq, good_false_eq]
        unfold distOf
        rw [hq_pt, hrel j hjn]
    rw [hstep]
    have hcomp : (fun j => good metric rng false querySet origRef q
        (s.oldFromNewReferences.getD j 0))
        = (good metric rng false querySet origRef q)
          ∘ (fun j => s.oldFromNewReferences.getD j 0) := rfl
    rw [hcomp, ← List.filter_map]
    have hmapR : (List.range s.referenceSet.length).map
        (fun j => s.oldFromNewReferences.getD j 0)
        = s.oldFromNewReferences := by
      have hlen : s.oldFromNewReferences.length = s.referenceSet.length := by
        rw [hpr.length_eq, List.length_range]
      conv in List.range s.referenceSet.length => rw [← hlen]
      exact map_getD_range s.oldFromNewReferences
    rw [hmapR, hlenOR]
    exact List.Perm.map _ (hpr.filter _)
  · -- externally supplied reference tree: query side only
    subst horig
    have hdef : searchQuerySet true s σq mkRoot bmin bmax nmin nmax metric
        rng querySet =
        remapQueries (σq querySet) querySet.length
          (dualRows metric rng false
            (buildTree true σq mkRoot 0 querySet).1.dataset s.referenceSet
            nmin nmax (buildTree true σq mkRoot 0 querySet).1.root
            (refRootOf s) querySet.length) := by
      simp [searchQuerySet, hnv, hsm, hto]
    rw [hdef]
    have hfin1 : (remapQueries (σq querySet) querySet.length
        (dualRows metric rng false
          (buildTree true σq mkRoot 0 querySet).1.dataset s.referenceSet
          nmin nmax (buildTree true σq mkRoot 0 querySet).1.root
          (refRootOf s) querySet.length)).1.getD q [] = L := by
      unfold remapQueries
      rw [← hkeq, scatterRows_getD _ querySet.length _ hσ k hk, hrow1]
    have hfin2 : (remapQueries (σq querySet) querySet.length
        (dualRows metric rng false
          (buildTree true σq mkRoot 0 querySet).1.dataset s.referenceSet
          nmin nmax (buildTree true σq mkRoot 0 querySet).1.root
          (refRootOf s) querySet.length)).2.getD q []
        = L.map (distOf metric
            (buildTree true σq mkRoot 0 querySet).1.dataset
            s.referenceSet k) := by
      unfold remapQueries
      rw [← hkeq, scatterRows_getD _ querySet.length _ hσ k hk, hrow2]
    have hdista : distOf metric
        (buildTree true σq mkRoot 0 querySet).1.dataset s.referenceSet k
        = distOf metric querySet s.referenceSet q := by
      funext j
      unfold distOf
      rw [hq_pt]
    have hgooda : good metric rng false
        (buildTree true σq mkRoot 0 querySet).1.dataset s.referenceSet k
        = good metric rng false querySet s.referenceSet q := by
      funext j
      rw [good_false_eq, good_false_eq, hdista]
    have hpairs : pairsAt (remapQueries (σq querySet) querySet.length
        (dualRows metric rng false
          (buildTree true σq mkRoot 0 querySet).1.dataset s.referenceSet
          nmin nmax (buildTree true σq mkRoot 0 querySet).1.root
          (refRootOf s) querySet.length)) q
        = L.map (fun j => (j, distOf metric querySet s.referenceSet q j)) := by
      unfold pairsAt
      rw [hfin1, hfin2, hdista, zip_self_map]
    rw [hpairs, hnaive]
    rw [hgooda] at hLperm
    exact List.Perm.map _ hLperm

/-- Witness for C2 at concrete inputs: the owning orchestrator built
over the caller set `[0, 1]` (internally permuted to `[1, 0]`), query
set `[5, 0]` (internally permuted by the swap tree), range `[0, 5]`:
each query row of the dual-tree search, after remapping, matches the
naive rows over the caller's original matrices. -/
theorem search_remaps_to_original_indices_witness :
    (wStateOwner.naive = false ∧ wStateOwner.treeOwner = true) ∧
    List.Perm
      (pairsAt (searchQuerySet true wStateOwner wSwap wRootPair wBmin
        wBmax wNmin wNmax wMetric wRange [(5 : ℤ), 0]) 0)
      (pairsAt (naiveRows wMetric wRange false [(5 : ℤ), 0]
        [(0 : ℤ), 1]) 0) ∧
    List.Perm
      (pairsAt (searchQuerySet true wStateOwner wSwap wRootPair wBmin
        wBmax wNmin wNmax wMetric wRange [(5 : ℤ), 0]) 1)
      (pairsAt (naiveRows wMetric wRange false [(5 : ℤ), 0]
        [(0 : ℤ), 1]) 1) := by
  refine ⟨⟨by decide, by decide⟩, ?_, ?_⟩
  · exact search_remaps_to_original_indices wStateOwner wSwap wRootPair
      wBmin wBmax wNmin wNmax wMetric wRange [(5 : ℤ), 0] [(0 : ℤ), 1]
      (by decide) (by decide) (by decide) (by decide) (by decide)
      (by unfold dualBoundsSound; decide) (Or.inl (by decide)) 0 (by decide)
  · exact search_remaps_to_original_indices wStateOwner wSwap wRootPair
      wBmin wBmax wNmin wNmax wMetric wRange [(5 : ℤ), 0] [(0 : ℤ), 1]
      (by decide) (by decide) (by decide) (by decide) (by decide)
      (by unfold dualBoundsSound; decide) (Or.inl (by decide)) 1 (by decide)

end RangeSearchModel
